import Mathlib

/-!
Invoice Generator — verification of the core model.

Shallow embedding of the invoice-generator core (`models.py`, `utils.py`):
Python `Decimal` values, the monetary rounding helper `as_money`, the
`Company`/`Customer`/`Item`/`Invoice` domain model with its derived totals,
JSON (de)serialization (`to_dict` / `from_dict`), and the UI helpers
`parse_decimal` and `format_currency`.

Modelling conventions:

* A finite Python `Decimal` is a pair of an integer coefficient and an
  integer exponent (`coeff * 10 ^ exp`); the special values `NaN` and
  `Infinity` are outside the model.  `Decimal` equality in Python compares
  numeric values; the serialization round trip below is proved at the
  stronger representation level, which implies it.
* The decimal context of `models.py` sets `prec = 28`.  Context arithmetic
  (`+`, `*`, `/`) rounds every result to 28 significant digits with
  ROUND_HALF_EVEN, modelled by `ctxFix` (the `_fix` step of `_pydecimal`);
  the operations are exact precisely when the raw result already fits in
  28 digits.  `quantize` *signals InvalidOperation* (raises) when the
  length of the result coefficient exceeds the context precision, and that
  check is modelled faithfully — `as_money` returns an `Option`, with
  `none` for the raising case.
* Raising Python code is modelled with `Option` (`none` = an exception
  propagates); ambient state (`date.today()`) is passed explicitly.
-/

/-! ## Decimal digit strings

Digit lists are most-significant-first, matching the coefficient digit
strings Python's `_pydecimal` manipulates.  `digitsFuel` is a structurally
recursive (hence kernel-reducible) little-endian digit extractor, bridged
to Mathlib's `Nat.digits` for proofs. -/

def digitsFuel : ℕ → ℕ → List ℕ
  | 0, _ => []
  | fuel + 1, n => if n = 0 then [] else n % 10 :: digitsFuel fuel (n / 10)

theorem digitsFuel_eq_digits (fuel n : ℕ) (h : n ≤ fuel) :
    digitsFuel fuel n = Nat.digits 10 n := by
  induction fuel generalizing n with
  | zero =>
    have : n = 0 := Nat.le_zero.mp h
    subst this
    simp [digitsFuel]
  | succ fuel ih =>
    by_cases hn : n = 0
    · subst hn; simp [digitsFuel]
    · have hlt : n / 10 < n := Nat.div_lt_self (Nat.pos_of_ne_zero hn) (by norm_num)
      have hle : n / 10 ≤ fuel := by omega
      rw [digitsFuel, if_neg hn, ih _ hle,
        Nat.digits_def' (by norm_num : 1 < 10) (Nat.pos_of_ne_zero hn)]

/-- Most-significant-first decimal digits of a coefficient; `[0]` for zero,
matching the `"0"` coefficient string of `Decimal(0)`. -/
def decDigits (n : ℕ) : List ℕ :=
  if n = 0 then [0] else (digitsFuel n n).reverse

/-- Number of digits in the decimal coefficient string of `n` (so 1 for 0). -/
def numDigits (n : ℕ) : ℕ := (decDigits n).length

/-- Value of a most-significant-first digit list (Horner evaluation, exactly
what `int(digitstring)` computes). -/
def digitsVal (ds : List ℕ) : ℕ := ds.foldl (fun a d => 10 * a + d) 0

theorem digitsVal_reverse (l : List ℕ) : digitsVal l.reverse = Nat.ofDigits 10 l := by
  induction l with
  | nil => simp [digitsVal]
  | cons a l ih =>
    have : digitsVal (l.reverse ++ [a]) = 10 * digitsVal l.reverse + a := by
      simp [digitsVal, List.foldl_append]
    simp only [List.reverse_cons, this, ih, Nat.ofDigits_cons]
    ring

theorem digitsVal_decDigits (n : ℕ) : digitsVal (decDigits n) = n := by
  by_cases hn : n = 0
  · subst hn; simp [decDigits, digitsVal]
  · rw [decDigits, if_neg hn, digitsFuel_eq_digits n n le_rfl, digitsVal_reverse]
    exact_mod_cast Nat.ofDigits_digits 10 n

theorem decDigits_lt (n : ℕ) : ∀ d ∈ decDigits n, d < 10 := by
  intro d hd
  by_cases hn : n = 0
  · subst hn; simp [decDigits] at hd; omega
  · rw [decDigits, if_neg hn, digitsFuel_eq_digits n n le_rfl, List.mem_reverse] at hd
    exact Nat.digits_lt_base (by norm_num) hd

theorem decDigits_ne_nil (n : ℕ) : decDigits n ≠ [] := by
  by_cases hn : n = 0
  · subst hn; simp [decDigits]
  · rw [decDigits, if_neg hn]
    intro hcontra
    have h0 := digitsVal_decDigits n
    rw [decDigits, if_neg hn, hcontra] at h0
    simp [digitsVal] at h0
    exact hn h0.symm

theorem digitsVal_replicate_zero (k : ℕ) (ds : List ℕ) :
    digitsVal (List.replicate k 0 ++ ds) = digitsVal ds := by
  induction k with
  | zero => simp
  | succ k ih =>
    have : List.replicate (k + 1) 0 ++ ds = 0 :: (List.replicate k 0 ++ ds) := by
      simp [List.replicate_succ]
    rw [this]
    simpa [digitsVal] using ih

/-! ## Python `Decimal` (finite values) -/

/-- A finite Python `Decimal`: value `m * 10 ^ e`.  The coefficient carries
the sign (`-0` is identified with `0`, which is sound for every operation
and comparison the program performs). -/
structure Decimal where
  m : ℤ
  e : ℤ
deriving DecidableEq, Repr

/-- Numeric value of a `Decimal` (Python `==` compares these). -/
def Decimal.val (d : Decimal) : ℚ := (d.m : ℚ) * (10 : ℚ) ^ d.e

/-- Round `a / b` (`b > 0`) to the nearest integer, ties to even: the
`ROUND_HALF_EVEN` rounding of the default context, which `models.py`
leaves in force (it only sets `prec`). -/
def halfEvenDiv (a b : ℤ) : ℤ :=
  if 2 * a.emod b < b then a.ediv b
  else if b < 2 * a.emod b then a.ediv b + 1
  else if (a.ediv b).emod 2 = 0 then a.ediv b else a.ediv b + 1

/-- The context's `_fix` step applied to an exact arithmetic result: a
coefficient longer than `prec = 28` digits is rounded to 28 significant
digits with `ROUND_HALF_EVEN`, raising the exponent accordingly (with the
carry case `99…9 → 10…0` renormalized).  Results within precision pass
through unchanged.  The context's exponent-range limits (`Emin`/`Emax`)
are astronomically far and not modelled. -/
def ctxFix (d : Decimal) : Decimal :=
  if numDigits d.m.natAbs ≤ 28 then d
  else
    let shift := numDigits d.m.natAbs - 28
    let r := halfEvenDiv d.m (10 ^ shift)
    if numDigits r.natAbs ≤ 28 then ⟨r, d.e + shift⟩
    else ⟨r.ediv 10, d.e + shift + 1⟩

/-- `Decimal` multiplication under the `prec = 28` context: the exact
product `coeff1*coeff2 × 10^(e1+e2)`, context-rounded by `_fix` when its
coefficient exceeds 28 digits. -/
def Decimal.mul (a b : Decimal) : Decimal := ctxFix ⟨a.m * b.m, a.e + b.e⟩

/-- `Decimal` addition under the context: align to the smaller exponent,
add coefficients, then context-round the result. -/
def Decimal.add (a b : Decimal) : Decimal :=
  ctxFix ⟨a.m * 10 ^ (a.e - min a.e b.e).toNat + b.m * 10 ^ (b.e - min a.e b.e).toNat,
    min a.e b.e⟩

/-- `x / Decimal("100")` as used by `Item.tax_amount`.  Exact division:
the quotient's coefficient is the dividend's with up to two trailing zeros
stripped (never below the ideal exponent `e`), then context-rounded. -/
def Decimal.div100 (d : Decimal) : Decimal :=
  if d.m.emod 100 = 0 then ctxFix ⟨d.m.ediv 100, d.e⟩
  else if d.m.emod 10 = 0 then ctxFix ⟨d.m.ediv 10, d.e - 1⟩
  else ctxFix ⟨d.m, d.e - 2⟩

/-- The zero `Decimal("0")` (the `sum` start value in `models.py`). -/
def decZero : Decimal := ⟨0, 0⟩

/-- Round `a / b` (for `b > 0`, `b` a power of ten) to the nearest integer,
ties away from zero: the integer form of `ROUND_HALF_UP`. -/
def halfAwayDiv (a b : ℤ) : ℤ :=
  if 0 ≤ a then (a + b.ediv 2).ediv b else -((-a + b.ediv 2).ediv b)

/-- Coefficient of `value.quantize(Decimal("1.00"), rounding=ROUND_HALF_UP)`:
the coefficient of the result at exponent `-2`. -/
def quantCoeff (d : Decimal) : ℤ :=
  if -2 ≤ d.e then d.m * 10 ^ (d.e + 2).toNat
  else halfAwayDiv d.m (10 ^ (-(d.e + 2)).toNat)

/-- `as_money` (`models.py`): quantize to two fractional digits with
`ROUND_HALF_UP` under the `prec = 28` context.  `quantize` signals
`InvalidOperation` — modelled as `none` — when the length of the result
coefficient exceeds the context precision of 28 digits. -/
def as_money (value : Decimal) : Option Decimal :=
  let c := quantCoeff value
  if numDigits c.natAbs ≤ 28 then some ⟨c, -2⟩ else none

/-! ## Specification-level rounding on ℚ

`rhalfAway` is the mathematical "round to nearest, ties away from zero";
`round2Q` rounds a rational to two fractional digits that way.  The bridge
lemma `quantCoeff_eq_rhalfAway` is what makes the integer implementation
above *mean* round-half-up. -/

/-- Round a rational to the nearest integer, ties away from zero. -/
def rhalfAway (x : ℚ) : ℤ :=
  if 0 ≤ x then ⌊x + 1 / 2⌋ else -⌊-x + 1 / 2⌋

/-- Round a rational to 2 fractional digits, half away from zero. -/
def round2Q (x : ℚ) : ℚ := (rhalfAway (x * 100) : ℚ) / 100

theorem rhalfAway_intCast (n : ℤ) : rhalfAway (n : ℚ) = n := by
  unfold rhalfAway
  by_cases h : (0 : ℚ) ≤ (n : ℚ)
  · rw [if_pos h, Int.floor_int_add]
    norm_num
  · rw [if_neg h, show (-(n : ℚ) + 1 / 2) = ((-n : ℤ) : ℚ) + 1 / 2 by push_cast; ring,
      Int.floor_int_add]
    norm_num

theorem floor_intCast_div (a b : ℤ) (hb : 0 < b) :
    ⌊(a : ℚ) / (b : ℚ)⌋ = a.ediv b := by
  have hbq : (0 : ℚ) < (b : ℚ) := by exact_mod_cast hb
  have hdecomp : a = b * a.ediv b + a.emod b := (Int.ediv_add_emod a b).symm
  have hmodnn : 0 ≤ a.emod b := Int.emod_nonneg a hb.ne'
  have hmodlt : a.emod b < b := Int.emod_lt_of_pos a hb
  have hq : (a : ℚ) = (b : ℚ) * (a.ediv b : ℚ) + (a.emod b : ℚ) := by exact_mod_cast hdecomp
  have hrnn : (0 : ℚ) ≤ (a.emod b : ℚ) := by exact_mod_cast hmodnn
  have hrlt : (a.emod b : ℚ) < (b : ℚ) := by exact_mod_cast hmodlt
  rw [Int.floor_eq_iff]
  constructor
  · rw [le_div_iff₀ hbq]
    nlinarith
  · rw [div_lt_iff₀ hbq]
    nlinarith

theorem two_mul_ediv_two_pow10 (k : ℕ) (hk : 1 ≤ k) :
    2 * (10 ^ k : ℤ).ediv 2 = 10 ^ k := by
  obtain ⟨j, rfl⟩ : ∃ j, k = j + 1 := ⟨k - 1, by omega⟩
  have h : (10 ^ (j + 1) : ℤ) = 2 * (5 * 10 ^ j) := by ring
  rw [h]
  exact congrArg (2 * ·) (Int.mul_ediv_cancel_left _ (by norm_num))

theorem floor_add_half_eq_ediv (a b : ℤ) (hb : 0 < b) (heven : 2 * b.ediv 2 = b) :
    ⌊(a : ℚ) / (b : ℚ) + 1 / 2⌋ = (a + b.ediv 2).ediv b := by
  rw [← floor_intCast_div (a + b.ediv 2) b hb]
  congr 1
  have hbq : ((b : ℚ)) ≠ 0 := by exact_mod_cast hb.ne'
  have h2 : (2 : ℚ) * ((b.ediv 2 : ℤ) : ℚ) = (b : ℚ) := by exact_mod_cast heven
  have hh : ((b.ediv 2 : ℤ) : ℚ) = (b : ℚ) / 2 := by linarith
  push_cast
  rw [hh, add_div, div_div, mul_comm (2 : ℚ) (b : ℚ), ← div_div, div_self hbq]

theorem halfAwayDiv_eq_rhalfAway (a : ℤ) (k : ℕ) (hk : 1 ≤ k) :
    halfAwayDiv a (10 ^ k) = rhalfAway ((a : ℚ) / ((10 : ℚ) ^ k)) := by
  have hb : (0 : ℤ) < 10 ^ k := by positivity
  have hbq : (0 : ℚ) < (10 : ℚ) ^ k := by positivity
  have heven := two_mul_ediv_two_pow10 k hk
  have hcast : (((10 : ℤ) ^ k : ℤ) : ℚ) = (10 : ℚ) ^ k := by push_cast; ring
  by_cases ha : 0 ≤ a
  · have hx : (0 : ℚ) ≤ (a : ℚ) / ((10 : ℚ) ^ k) := by positivity
    rw [halfAwayDiv, if_pos ha, rhalfAway, if_pos hx, ← hcast,
      floor_add_half_eq_ediv a _ hb heven]
  · have haq : (a : ℚ) < 0 := by exact_mod_cast not_le.mp ha
    have hx : ¬(0 : ℚ) ≤ (a : ℚ) / ((10 : ℚ) ^ k) := by
      simp only [not_le]
      exact div_neg_of_neg_of_pos haq hbq
    rw [halfAwayDiv, if_neg ha, rhalfAway, if_neg hx]
    have : -((a : ℚ) / (10 : ℚ) ^ k) = ((-a : ℤ) : ℚ) / ((10 : ℚ) ^ k) := by
      push_cast; ring
    rw [this, ← hcast, floor_add_half_eq_ediv (-a) _ hb heven]

/-- The integer quantize coefficient is exactly "round `100 * value` to the
nearest integer, ties away from zero" — i.e. `as_money` is round-half-up to
two fractional digits. -/
theorem quantCoeff_eq (d : Decimal) : (quantCoeff d : ℚ) = rhalfAway (d.val * 100) := by
  rcases d with ⟨m, e⟩
  by_cases he : -2 ≤ e
  · have hnn : (0 : ℤ) ≤ e + 2 := by omega
    have hval : (Decimal.val ⟨m, e⟩) * 100 = ((m * 10 ^ (e + 2).toNat : ℤ) : ℚ) := by
      unfold Decimal.val
      push_cast
      rw [mul_assoc, show ((10 : ℚ) ^ ((e + 2).toNat) = (10 : ℚ) ^ (((e + 2).toNat : ℤ)))
        from (zpow_natCast _ _).symm, Int.toNat_of_nonneg hnn,
        show ((100 : ℚ)) = (10 : ℚ) ^ (2 : ℤ) by norm_num,
        ← zpow_add₀ (by norm_num : (10 : ℚ) ≠ 0)]
    rw [hval, rhalfAway_intCast, quantCoeff, if_pos he]
  · have hk : 1 ≤ (-(e + 2)).toNat := by omega
    have hval : (Decimal.val ⟨m, e⟩) * 100 = (m : ℚ) / ((10 : ℚ) ^ ((-(e + 2)).toNat)) := by
      unfold Decimal.val
      rw [show ((10 : ℚ) ^ ((-(e + 2)).toNat) = (10 : ℚ) ^ (((-(e + 2)).toNat : ℤ)))
        from (zpow_natCast _ _).symm, Int.toNat_of_nonneg (by omega : (0:ℤ) ≤ -(e + 2))]
      rw [div_eq_mul_inv, ← zpow_neg, neg_neg]
      rw [mul_assoc, show ((100 : ℚ)) = (10 : ℚ) ^ (2 : ℤ) by norm_num,
        ← zpow_add₀ (by norm_num : (10 : ℚ) ≠ 0)]
    rw [hval, ← halfAwayDiv_eq_rhalfAway m _ hk, quantCoeff, if_neg he]

theorem val_mk_neg2 (c : ℤ) : Decimal.val ⟨c, -2⟩ = (c : ℚ) / 100 := by
  unfold Decimal.val
  rw [show ((-2 : ℤ)) = -(2 : ℤ) from rfl, zpow_neg]
  norm_num
  ring

/-- Characterization of a successful `as_money`: the result has exponent
`-2` and its value is the input's value rounded half-up to 2 digits. -/
theorem as_money_some (d c : Decimal) (h : as_money d = some c) :
    c = ⟨quantCoeff d, -2⟩ ∧ c.val = round2Q d.val ∧ c.e = -2 := by
  unfold as_money at h
  by_cases hc : numDigits (quantCoeff d).natAbs ≤ 28
  · simp only [hc, if_true] at h
    obtain rfl := (Option.some_injective _ h).symm
    refine ⟨rfl, ?_, rfl⟩
    rw [val_mk_neg2, round2Q, quantCoeff_eq]
  · simp [hc] at h

theorem as_money_isSome (d : Decimal) (h : numDigits (quantCoeff d).natAbs ≤ 28) :
    as_money d = some ⟨quantCoeff d, -2⟩ := by
  unfold as_money
  simp [h]

theorem ctxFix_eq_self (d : Decimal) (h : numDigits d.m.natAbs ≤ 28) :
    ctxFix d = d := by
  unfold ctxFix
  rw [if_pos h]

theorem val_raw_mul (a b : Decimal) :
    (Decimal.mk (a.m * b.m) (a.e + b.e)).val = a.val * b.val := by
  unfold Decimal.val
  push_cast
  rw [zpow_add₀ (by norm_num : (10 : ℚ) ≠ 0)]
  ring

/-- Within the 28-significant-digit context precision, multiplication is
exact. -/
theorem Decimal.val_mul_exact (a b : Decimal)
    (h : numDigits (a.m * b.m).natAbs ≤ 28) : (a.mul b).val = a.val * b.val := by
  unfold Decimal.mul
  rw [ctxFix_eq_self ⟨a.m * b.m, a.e + b.e⟩ h]
  exact val_raw_mul a b

theorem val_raw_add (a b : Decimal) :
    (Decimal.mk (a.m * 10 ^ (a.e - min a.e b.e).toNat +
        b.m * 10 ^ (b.e - min a.e b.e).toNat) (min a.e b.e)).val =
      a.val + b.val := by
  have key : ∀ (m x : ℤ), min a.e b.e ≤ x →
      (m : ℚ) * (10 : ℚ) ^ ((x - min a.e b.e).toNat) * (10 : ℚ) ^ (min a.e b.e) =
        (m : ℚ) * (10 : ℚ) ^ x := by
    intro m x hx
    rw [show ((10 : ℚ) ^ ((x - min a.e b.e).toNat) =
        (10 : ℚ) ^ (((x - min a.e b.e).toNat : ℤ))) from (zpow_natCast _ _).symm,
      Int.toNat_of_nonneg (by omega), mul_assoc,
      ← zpow_add₀ (by norm_num : (10 : ℚ) ≠ 0)]
    congr 2
    omega
  unfold Decimal.val
  push_cast
  rw [add_mul, key a.m a.e (min_le_left _ _), key b.m b.e (min_le_right _ _)]

/-- Within the 28-significant-digit context precision, addition is exact. -/
theorem Decimal.val_add_exact (a b : Decimal)
    (h : numDigits (a.m * 10 ^ (a.e - min a.e b.e).toNat +
        b.m * 10 ^ (b.e - min a.e b.e).toNat).natAbs ≤ 28) :
    (a.add b).val = a.val + b.val := by
  unfold Decimal.add
  rw [ctxFix_eq_self _ h]
  exact val_raw_add a b

theorem decZero_val : decZero.val = 0 := by
  unfold decZero Decimal.val
  norm_num

/-- Evaluate `rhalfAway` at a concrete nonnegative rational by bracketing
`x + 1/2` between `n` and `n + 1`. -/
theorem rhalfAway_nonneg_eq (x : ℚ) (n : ℤ) (h1 : 0 ≤ x)
    (h2 : (n : ℚ) ≤ x + 1 / 2) (h3 : x + 1 / 2 < n + 1) : rhalfAway x = n := by
  rw [rhalfAway, if_pos h1, Int.floor_eq_iff]
  exact ⟨h2, h3⟩

/-! ## Digit characters -/

/-- The ASCII digit character for `d < 10`. -/
def digitChar (d : ℕ) : Char := Char.ofNat (48 + d)

/-- Inverse of `digitChar`: `some` on `'0'..'9'`, else `none`. -/
def charToDigit (c : Char) : Option ℕ :=
  if c.isDigit then some (c.toNat - 48) else none

theorem charToDigit_digitChar (d : ℕ) (h : d < 10) :
    charToDigit (digitChar d) = some d := by
  interval_cases d <;> decide

/-! ## Python `datetime.date`

A calendar date with the validity predicate the `date` constructor
enforces (`1 ≤ year ≤ 9999`, month and day in range, Gregorian leap
years); `isoformat` / `fromisoformat` are the `YYYY-MM-DD` codec used by
`to_dict` / `from_dict`. -/

structure Date where
  year : ℕ
  month : ℕ
  day : ℕ
deriving DecidableEq, Repr

def isLeap (y : ℕ) : Bool := y % 4 == 0 && (y % 100 != 0 || y % 400 == 0)

def daysInMonth (y m : ℕ) : ℕ :=
  if m = 2 then (if isLeap y then 29 else 28)
  else if m = 4 ∨ m = 6 ∨ m = 9 ∨ m = 11 then 30
  else 31

/-- The invariant every constructed Python `date` satisfies. -/
def Date.valid (d : Date) : Prop :=
  1 ≤ d.year ∧ d.year ≤ 9999 ∧ 1 ≤ d.month ∧ d.month ≤ 12 ∧
    1 ≤ d.day ∧ d.day ≤ daysInMonth d.year d.month

instance (d : Date) : Decidable d.valid := by
  unfold Date.valid
  infer_instance

theorem daysInMonth_le (y m : ℕ) : daysInMonth y m ≤ 31 := by
  unfold daysInMonth
  split_ifs <;> norm_num

/-- Two zero-padded decimal digits (for months and days). -/
def pad2 (n : ℕ) : List Char := [digitChar (n / 10), digitChar (n % 10)]

/-- Four zero-padded decimal digits (for years). -/
def pad4 (n : ℕ) : List Char :=
  [digitChar (n / 1000), digitChar (n / 100 % 10), digitChar (n / 10 % 10),
    digitChar (n % 10)]

/-- `date.isoformat()`: `YYYY-MM-DD`. -/
def Date.isoformat (d : Date) : String :=
  String.mk (pad4 d.year ++ '-' :: (pad2 d.month ++ '-' :: pad2 d.day))

/-- `date.fromisoformat` (Python 3.11): parse `YYYY-MM-DD` or the compact
`YYYYMMDD` and validate the ranges (the `date` constructor raises
`ValueError` — `none` — on out-of-range components).  The ISO week-date
forms also accepted by 3.11 (`YYYY-Www-D` and friends) are outside the
model; theorems about parse *failure* therefore restrict themselves to
strings of the canonical shape `isCanonicalDateShape`, where this
function agrees with Python exactly. -/
def date_fromisoformat (s : String) : Option Date :=
  match s.data with
  | [y1, y2, y3, y4, '-', m1, m2, '-', d1, d2] => do
    let a ← charToDigit y1
    let b ← charToDigit y2
    let c ← charToDigit y3
    let d4 ← charToDigit y4
    let e ← charToDigit m1
    let f ← charToDigit m2
    let g ← charToDigit d1
    let h ← charToDigit d2
    let dt : Date := ⟨a * 1000 + b * 100 + c * 10 + d4, e * 10 + f, g * 10 + h⟩
    if dt.valid then some dt else none
  | [y1, y2, y3, y4, m1, m2, d1, d2] => do
    let a ← charToDigit y1
    let b ← charToDigit y2
    let c ← charToDigit y3
    let d4 ← charToDigit y4
    let e ← charToDigit m1
    let f ← charToDigit m2
    let g ← charToDigit d1
    let h ← charToDigit d2
    let dt : Date := ⟨a * 1000 + b * 100 + c * 10 + d4, e * 10 + f, g * 10 + h⟩
    if dt.valid then some dt else none
  | _ => none

theorem date_fromisoformat_isoformat (d : Date) (h : d.valid) :
    date_fromisoformat d.isoformat = some d := by
  rcases d with ⟨y, mo, dy⟩
  have h' : 1 ≤ y ∧ y ≤ 9999 ∧ 1 ≤ mo ∧ mo ≤ 12 ∧ 1 ≤ dy ∧ dy ≤ daysInMonth y mo := h
  obtain ⟨h1, h2, h3, h4, h5, h6⟩ := h'
  have h7 : dy ≤ 31 := le_trans h6 (daysInMonth_le y mo)
  simp only [Date.isoformat, pad4, pad2, List.cons_append, List.nil_append,
    date_fromisoformat]
  rw [charToDigit_digitChar _ (by omega), charToDigit_digitChar _ (by omega),
    charToDigit_digitChar _ (by omega), charToDigit_digitChar _ (by omega),
    charToDigit_digitChar _ (by omega), charToDigit_digitChar _ (by omega),
    charToDigit_digitChar _ (by omega), charToDigit_digitChar _ (by omega)]
  simp only [Option.bind_eq_bind, Option.some_bind]
  have hy : y / 1000 * 1000 + y / 100 % 10 * 100 + y / 10 % 10 * 10 + y % 10 = y := by
    omega
  have hmo : mo / 10 * 10 + mo % 10 = mo := by omega
  have hdy : dy / 10 * 10 + dy % 10 = dy := by omega
  rw [hy, hmo, hdy, if_pos]
  exact h

/-! ## Domain model (`models.py`) -/

structure Company where
  name : String
  address : String
  gst_number : String
  email : String
  phone : String
deriving DecidableEq, Repr

structure Customer where
  name : String
  address : String
  email : String
  phone : String
deriving DecidableEq, Repr

structure Item where
  description : String
  quantity : Decimal
  unit_price : Decimal
  tax_rate : Decimal
deriving DecidableEq, Repr

/-- `Item.subtotal`: `as_money(quantity * unit_price)`. -/
def Item.subtotal (it : Item) : Option Decimal :=
  as_money (it.quantity.mul it.unit_price)

/-- `Item.tax_amount`: `as_money(subtotal() * (tax_rate / 100))`. -/
def Item.tax_amount (it : Item) : Option Decimal := do
  let s ← it.subtotal
  as_money (s.mul it.tax_rate.div100)

/-- `Item.total`: `as_money(subtotal() + tax_amount())`. -/
def Item.total (it : Item) : Option Decimal := do
  let s ← it.subtotal
  let t ← it.tax_amount
  as_money (s.add t)

structure Invoice where
  company : Company
  customer : Customer
  items : List Item
  invoice_number : String
  invoice_date : Date
  due_date : Option Date
  currency : String
  notes : String
  authorized_by : String
deriving DecidableEq, Repr

/-- `mapM` over `Option`, written out: models a Python list comprehension in
which any raising element aborts the whole comprehension. -/
def optMapM {α β : Type} (f : α → Option β) : List α → Option (List β)
  | [] => some []
  | a :: l => do
    let b ← f a
    let bs ← optMapM f l
    some (b :: bs)

/-- `Invoice.subtotal`: `as_money(sum((i.subtotal() for i in items), Decimal("0")))`. -/
def Invoice.subtotal (inv : Invoice) : Option Decimal := do
  let ss ← optMapM Item.subtotal inv.items
  as_money (ss.foldl Decimal.add decZero)

/-- `Invoice.tax_total`: `as_money(sum((i.tax_amount() for i in items), Decimal("0")))`. -/
def Invoice.tax_total (inv : Invoice) : Option Decimal := do
  let ts ← optMapM Item.tax_amount inv.items
  as_money (ts.foldl Decimal.add decZero)

/-- `Invoice.grand_total`: `as_money(subtotal() + tax_total())`. -/
def Invoice.grand_total (inv : Invoice) : Option Decimal := do
  let s ← inv.subtotal
  let t ← inv.tax_total
  as_money (s.add t)


/-! ## `Decimal` string codec

`decToString` models CPython's `str(Decimal)` (the to-scientific-string
algorithm of `_pydecimal.__str__`); `decOfString` models the string form
of the `Decimal` constructor (numeric strings: optional surrounding
whitespace and underscores removed, optional sign, digits with an optional
point, optional exponent; the special values `NaN`/`Infinity` are outside
the model). -/

/-- Whitespace stripped by `str.strip()` and the `Decimal` constructor
(ASCII whitespace; the repository never feeds it exotic Unicode spaces). -/
def isSpaceChar (c : Char) : Bool :=
  c == ' ' || c == '\t' || c == '\n' || c == '\r' || c == '\x0b' || c == '\x0c'

/-- Strip leading and trailing whitespace from a character list. -/
def stripChars (cs : List Char) : List Char :=
  ((cs.dropWhile isSpaceChar).reverse.dropWhile isSpaceChar).reverse

/-- `"%+d" % x`: an explicit sign followed by the digits of `|x|`. -/
def expChars (x : ℤ) : List Char :=
  (if x < 0 then ['-'] else ['+']) ++ (decDigits x.natAbs).map digitChar

/-- The `(intpart, fracpart, exponent)` split of `_pydecimal.__str__`:
fixed-point notation when `exp <= 0` and the adjusted exponent is at least
`-6`, scientific notation with a one-digit integer part otherwise. -/
def decParts (d : Decimal) : List ℕ × List ℕ × Option ℤ :=
  let digs := decDigits d.m.natAbs
  let L : ℤ := (digs.length : ℤ)
  let left := d.e + L
  if d.e ≤ 0 ∧ -6 < left then
    if left ≤ 0 then ([0], List.replicate (-left).toNat 0 ++ digs, none)
    else if L ≤ left then (digs ++ List.replicate (left - L).toNat 0, [], none)
    else (digs.take left.toNat, digs.drop left.toNat, none)
  else
    if L ≤ 1 then
      (digs ++ List.replicate (1 - L).toNat 0, [], if left = 1 then none else some (left - 1))
    else (digs.take 1, digs.drop 1, if left = 1 then none else some (left - 1))

/-- Assemble integer part, optional fractional part and optional exponent
into the printed character list. -/
def bodyChars (p : List ℕ × List ℕ × Option ℤ) : List Char :=
  p.1.map digitChar ++
    (if p.2.1 = [] then [] else '.' :: p.2.1.map digitChar) ++
    (match p.2.2 with
     | none => []
     | some x => 'E' :: expChars x)

def decToChars (d : Decimal) : List Char :=
  (if d.m < 0 then ['-'] else []) ++ bodyChars (decParts d)

/-- `str(Decimal)`. -/
def decToString (d : Decimal) : String := String.mk (decToChars d)

/-- Munch a maximal run of digit characters. -/
def takeDigits : List Char → List ℕ × List Char
  | [] => ([], [])
  | c :: cs =>
    match charToDigit c with
    | some d => ((takeDigits cs).1.cons d, (takeDigits cs).2)
    | none => ([], c :: cs)

/-- Consume one optional leading sign; `true` means negative. -/
def parseSign : List Char → Bool × List Char
  | [] => (false, [])
  | c :: cs =>
    if c = '-' then (true, cs)
    else if c = '+' then (false, cs)
    else (false, c :: cs)

/-- Split at the first `E`/`e`, if any. -/
def splitExp : List Char → List Char × Option (List Char)
  | [] => ([], none)
  | c :: cs =>
    if c = 'E' ∨ c = 'e' then ([], some cs)
    else ((splitExp cs).1.cons c, (splitExp cs).2)

/-- Parse the exponent that follows an `E`: optional sign then a nonempty
run of digits consuming the whole rest. -/
def parseExpTail (cs : List Char) : Option ℤ :=
  let sp := parseSign cs
  let td := takeDigits sp.2
  if td.1 = [] ∨ td.2 ≠ [] then none
  else some ((if sp.1 then -1 else 1) * (digitsVal td.1 : ℤ))

/-- Parse the mantissa `digits[.digits]` (at least one digit in total,
nothing left over): returns the coefficient and the fraction length. -/
def parseMantissa (cs : List Char) : Option (ℕ × ℕ) :=
  let ti := takeDigits cs
  match ti.2 with
  | [] => if ti.1 = [] then none else some (digitsVal ti.1, 0)
  | '.' :: rest2 =>
    let tf := takeDigits rest2
    if tf.2 ≠ [] then none
    else if ti.1 = [] ∧ tf.1 = [] then none
    else some (digitsVal (ti.1 ++ tf.1), tf.1.length)
  | _ => none

/-- Core of the `Decimal` constructor on character lists. -/
def parseDecCore (cs0 : List Char) : Option Decimal :=
  let cs := (stripChars cs0).filter (fun c => c != '_')
  let sp := parseSign cs
  let me := splitExp sp.2
  do
    let p ← parseMantissa me.1
    let ex ←
      match me.2 with
      | none => some (0 : ℤ)
      | some ecs => parseExpTail ecs
    some ⟨(if sp.1 then -1 else 1) * (p.1 : ℤ), ex - p.2⟩

/-- `Decimal(s)` for a numeric string `s`, covering the finite values.
Python's constructor additionally accepts the special values
`Infinity`/`Inf`, `NaN` and `sNaN` (optionally signed, case-insensitive,
with an optional diagnostic digit string after `NaN`), which lie outside
this finite model; theorems about constructor *failure* therefore exclude
them through `isDecSpecial`, and on the remaining strings `none` means
Python raises `InvalidOperation`. -/
def decOfString (s : String) : Option Decimal := parseDecCore s.data

theorem digitChar_class (d : ℕ) (h : d < 10) :
    isSpaceChar (digitChar d) = false ∧ (digitChar d != '_') = true ∧
      charToDigit (digitChar d) = some d ∧ digitChar d ≠ 'E' ∧ digitChar d ≠ 'e' ∧
      digitChar d ≠ '-' ∧ digitChar d ≠ '+' ∧ digitChar d ≠ '.' ∧
      digitChar d ≠ ',' ∧ digitChar d ≠ '_' := by
  interval_cases d <;> decide

theorem dropWhile_eq_self_of {p : Char → Bool} {l : List Char}
    (h : ∀ c ∈ l, p c = false) : l.dropWhile p = l := by
  cases l with
  | nil => rfl
  | cons a l => simp [List.dropWhile_cons, h a (List.mem_cons_self a l)]

theorem stripChars_eq_self {l : List Char} (h : ∀ c ∈ l, isSpaceChar c = false) :
    stripChars l = l := by
  unfold stripChars
  rw [dropWhile_eq_self_of h, dropWhile_eq_self_of (by
    intro c hc
    exact h c (List.mem_reverse.mp hc)), List.reverse_reverse]

theorem takeDigits_append (ds : List ℕ) (h : ∀ d ∈ ds, d < 10) (rest : List Char)
    (hrest : ∀ c l2, rest = c :: l2 → charToDigit c = none) :
    takeDigits (ds.map digitChar ++ rest) = (ds, rest) := by
  induction ds with
  | nil =>
    cases rest with
    | nil => rfl
    | cons c l2 => simp [takeDigits, hrest c l2 rfl]
  | cons d ds ih =>
    have hd := (digitChar_class d (h d (List.mem_cons_self d ds))).2.2.1
    have ih2 := ih (fun x hx => h x (List.mem_cons_of_mem d hx))
    simp [takeDigits, hd, ih2]

theorem splitExp_no_e (a : List Char) (h : ∀ c ∈ a, c ≠ 'E' ∧ c ≠ 'e') :
    splitExp a = (a, none) := by
  induction a with
  | nil => rfl
  | cons c a ih =>
    have hc := h c (List.mem_cons_self c a)
    have ih2 := ih (fun x hx => h x (List.mem_cons_of_mem c hx))
    simp [splitExp, hc.1, hc.2, ih2]

theorem splitExp_append_e (a b : List Char) (h : ∀ c ∈ a, c ≠ 'E' ∧ c ≠ 'e') :
    splitExp (a ++ 'E' :: b) = (a, some b) := by
  induction a with
  | nil => simp [splitExp]
  | cons c a ih =>
    have hc := h c (List.mem_cons_self c a)
    have ih2 := ih (fun x hx => h x (List.mem_cons_of_mem c hx))
    simp [splitExp, hc.1, hc.2, ih2]

theorem parseSign_minus (cs : List Char) : parseSign ('-' :: cs) = (true, cs) := by
  simp [parseSign]

theorem parseSign_plus (cs : List Char) : parseSign ('+' :: cs) = (false, cs) := by
  simp [parseSign]

theorem parseSign_other (c : Char) (cs : List Char) (h1 : c ≠ '-') (h2 : c ≠ '+') :
    parseSign (c :: cs) = (false, c :: cs) := by
  simp only [parseSign]
  rw [if_neg h1, if_neg h2]

theorem parseExpTail_expChars (x : ℤ) : parseExpTail (expChars x) = some x := by
  have hds := decDigits_lt x.natAbs
  have hne := decDigits_ne_nil x.natAbs
  have htd : takeDigits ((decDigits x.natAbs).map digitChar) =
      (decDigits x.natAbs, []) := by
    have := takeDigits_append (decDigits x.natAbs) hds []
      (fun c l2 hcontra => by cases hcontra)
    simpa using this
  unfold expChars
  by_cases hx : x < 0
  · rw [if_pos hx, List.singleton_append]
    simp [parseExpTail, parseSign_minus, htd, hne, digitsVal_decDigits, abs_of_neg hx]
  · rw [if_neg hx, List.singleton_append]
    simp [parseExpTail, parseSign_plus, htd, hne, digitsVal_decDigits,
      abs_of_nonneg (not_lt.mp hx)]

theorem parseMantissa_build (ip fp : List ℕ) (hip : ∀ d ∈ ip, d < 10)
    (hfp : ∀ d ∈ fp, d < 10) (hipne : ip ≠ []) :
    parseMantissa
        (ip.map digitChar ++ (if fp = [] then [] else '.' :: fp.map digitChar)) =
      some (digitsVal (ip ++ fp), fp.length) := by
  by_cases hfpe : fp = []
  · subst hfpe
    rw [if_pos rfl, List.append_nil]
    have hti := takeDigits_append ip hip [] (fun c l2 h => by cases h)
    rw [List.append_nil] at hti
    simp [parseMantissa, hti, hipne]
  · rw [if_neg hfpe]
    have hti := takeDigits_append ip hip ('.' :: fp.map digitChar)
      (fun c l2 h => by
        injection h with h1 _
        subst h1
        decide)
    have htf := takeDigits_append fp hfp [] (fun c l2 h => by cases h)
    rw [List.append_nil] at htf
    simp [parseMantissa, hti, htf, hipne]

theorem mant_no_e (ip fp : List ℕ) (hip : ∀ d ∈ ip, d < 10)
    (hfp : ∀ d ∈ fp, d < 10) :
    ∀ c ∈ ip.map digitChar ++ (if fp = [] then [] else '.' :: fp.map digitChar),
      c ≠ 'E' ∧ c ≠ 'e' := by
  intro c hc
  rcases List.mem_append.mp hc with h5 | h6
  · obtain ⟨d, hd, rfl⟩ := List.mem_map.mp h5
    have hcl := digitChar_class d (hip d hd)
    exact ⟨hcl.2.2.2.1, hcl.2.2.2.2.1⟩
  · by_cases hfpe : fp = []
    · rw [if_pos hfpe] at h6
      simp at h6
    · rw [if_neg hfpe] at h6
      rcases List.mem_cons.mp h6 with rfl | h7
      · exact ⟨by decide, by decide⟩
      · obtain ⟨d, hd, rfl⟩ := List.mem_map.mp h7
        have hcl := digitChar_class d (hfp d hd)
        exact ⟨hcl.2.2.2.1, hcl.2.2.2.2.1⟩

theorem buildChars_class (neg : Prop) [Decidable neg] (ip fp : List ℕ)
    (expOpt : Option ℤ) (hip : ∀ d ∈ ip, d < 10) (hfp : ∀ d ∈ fp, d < 10) :
    ∀ c ∈ (if neg then ['-'] else []) ++ bodyChars (ip, fp, expOpt),
      isSpaceChar c = false ∧ (c != '_') = true := by
  intro c hc
  rcases List.mem_append.mp hc with h1 | h2
  · split_ifs at h1
    · simp at h1
      subst h1
      exact ⟨by decide, by decide⟩
    · simp at h1
  · simp only [bodyChars] at h2
    rcases List.mem_append.mp h2 with h3 | h4
    · rcases List.mem_append.mp h3 with h5 | h6
      · obtain ⟨d, hd, rfl⟩ := List.mem_map.mp h5
        have hcl := digitChar_class d (hip d hd)
        exact ⟨hcl.1, hcl.2.1⟩
      · by_cases hfpe : fp = []
        · rw [if_pos hfpe] at h6
          simp at h6
        · rw [if_neg hfpe] at h6
          rcases List.mem_cons.mp h6 with rfl | h7
          · exact ⟨by decide, by decide⟩
          · obtain ⟨d, hd, rfl⟩ := List.mem_map.mp h7
            have hcl := digitChar_class d (hfp d hd)
            exact ⟨hcl.1, hcl.2.1⟩
    · cases expOpt with
      | none => simp at h4
      | some x =>
        rcases List.mem_cons.mp h4 with rfl | h8
        · exact ⟨by decide, by decide⟩
        · unfold expChars at h8
          rcases List.mem_append.mp h8 with h9 | h10
          · split_ifs at h9 <;> simp at h9 <;> subst h9 <;>
              exact ⟨by decide, by decide⟩
          · obtain ⟨d, hd, rfl⟩ := List.mem_map.mp h10
            have hcl := digitChar_class d (decDigits_lt x.natAbs d hd)
            exact ⟨hcl.1, hcl.2.1⟩

theorem parseDecCore_build (neg : Prop) [Decidable neg] (ip fp : List ℕ)
    (expOpt : Option ℤ) (hip : ∀ d ∈ ip, d < 10) (hfp : ∀ d ∈ fp, d < 10)
    (hipne : ip ≠ []) :
    parseDecCore ((if neg then ['-'] else []) ++ bodyChars (ip, fp, expOpt)) =
      some ⟨(if neg then -1 else 1) * (digitsVal (ip ++ fp) : ℤ),
        expOpt.getD 0 - fp.length⟩ := by
  have hclass := buildChars_class neg ip fp expOpt hip hfp
  have hnoE := mant_no_e ip fp hip hfp
  have hmant := parseMantissa_build ip fp hip hfp hipne
  simp only [parseDecCore]
  rw [stripChars_eq_self (fun c hc => (hclass c hc).1),
    List.filter_eq_self.mpr (fun c hc => (hclass c hc).2)]
  clear hclass
  by_cases hneg : neg
  · rw [if_pos hneg, List.singleton_append, parseSign_minus]
    cases expOpt with
    | none =>
      simp only [bodyChars]
      rw [List.append_nil, splitExp_no_e _ hnoE]
      simp [hmant, hneg]
    | some x =>
      simp only [bodyChars]
      rw [splitExp_append_e _ _ hnoE]
      simp [hmant, parseExpTail_expChars, hneg]
  · rw [if_neg hneg, List.nil_append]
    obtain ⟨d0, ip', rfl⟩ : ∃ d0 ip', ip = d0 :: ip' := by
      cases ip with
      | nil => exact absurd rfl hipne
      | cons d0 ip' => exact ⟨d0, ip', rfl⟩
    have hcl := digitChar_class d0 (hip d0 (List.mem_cons_self d0 ip'))
    rw [List.map_cons, List.cons_append] at hmant hnoE
    cases expOpt with
    | none =>
      simp only [bodyChars, List.map_cons, List.cons_append, List.append_nil]
      rw [parseSign_other _ _ hcl.2.2.2.2.2.1 hcl.2.2.2.2.2.2.1,
        splitExp_no_e _ hnoE]
      simp [hmant, hneg]
    | some x =>
      simp only [bodyChars, List.map_cons, List.cons_append]
      rw [parseSign_other _ _ hcl.2.2.2.2.2.1 hcl.2.2.2.2.2.2.1,
        ← List.cons_append, splitExp_append_e _ _ hnoE]
      simp [hmant, parseExpTail_expChars, hneg]

theorem lt10_of_mem_append {l1 l2 : List ℕ} (h1 : ∀ x ∈ l1, x < 10)
    (h2 : ∀ x ∈ l2, x < 10) : ∀ x ∈ l1 ++ l2, x < 10 := by
  intro x hx
  rcases List.mem_append.mp hx with h | h
  · exact h1 x h
  · exact h2 x h

theorem lt10_replicate0 (k : ℕ) : ∀ x ∈ List.replicate k 0, x < 10 := by
  intro x hx
  rw [List.eq_of_mem_replicate hx]
  omega

theorem digitsVal_pad_left (k : ℕ) (ds : List ℕ) :
    digitsVal ([0] ++ (List.replicate k 0 ++ ds)) = digitsVal ds := by
  rw [show ([0] ++ (List.replicate k 0 ++ ds) : List ℕ) =
      List.replicate (k + 1) 0 ++ ds by simp [List.replicate_succ]]
  exact digitsVal_replicate_zero _ _

theorem sign_mul_natAbs (m : ℤ) :
    (if m < 0 then (-1 : ℤ) else 1) * (m.natAbs : ℤ) = m := by
  by_cases hm : m < 0
  · rw [if_pos hm]
    omega
  · rw [if_neg hm]
    omega

theorem parseDecCore_decToChars (d : Decimal) :
    parseDecCore (decToChars d) = some d := by
  rcases d with ⟨m, e⟩
  have hdlt := decDigits_lt m.natAbs
  have hdnn := decDigits_ne_nil m.natAbs
  have hL1 : 0 < (decDigits m.natAbs).length := List.length_pos.mpr hdnn
  simp only [decToChars, decParts]
  by_cases hfix : e ≤ 0 ∧ -6 < e + ((decDigits m.natAbs).length : ℤ)
  · rw [if_pos hfix]
    by_cases hle : e + ((decDigits m.natAbs).length : ℤ) ≤ 0
    · rw [if_pos hle]
      refine (parseDecCore_build (m < 0) _ _ _ ?_ ?_ ?_).trans ?_
      · intro x hx
        simp at hx
        omega
      · exact lt10_of_mem_append (lt10_replicate0 _) hdlt
      · simp
      · rw [digitsVal_pad_left, digitsVal_decDigits]
        simp only [Option.getD_none, List.length_append, List.length_replicate]
        rw [sign_mul_natAbs]
        simp only [Option.some.injEq, Decimal.mk.injEq]
        exact ⟨trivial, by omega⟩
    · rw [if_neg hle]
      by_cases hLle : ((decDigits m.natAbs).length : ℤ) ≤
          e + ((decDigits m.natAbs).length : ℤ)
      · rw [if_pos hLle]
        have hz : (e + ((decDigits m.natAbs).length : ℤ) -
            ((decDigits m.natAbs).length : ℤ)).toNat = 0 := by omega
        refine (parseDecCore_build (m < 0) _ _ _ ?_ ?_ ?_).trans ?_
        · exact lt10_of_mem_append hdlt (lt10_replicate0 _)
        · intro x hx
          simp at hx
        · simp [hdnn]
        · rw [hz]
          simp only [List.replicate_zero, List.append_nil, Option.getD_none,
            List.length_nil]
          rw [digitsVal_decDigits, sign_mul_natAbs]
          simp only [Option.some.injEq, Decimal.mk.injEq]
          exact ⟨trivial, by omega⟩
      · rw [if_neg hLle]
        refine (parseDecCore_build (m < 0) _ _ _ ?_ ?_ ?_).trans ?_
        · intro x hx
          exact hdlt x (List.take_subset _ _ hx)
        · intro x hx
          exact hdlt x (List.drop_subset _ _ hx)
        · intro hc
          rw [List.take_eq_nil_iff] at hc
          rcases hc with hc | hc
          · omega
          · exact hdnn hc
        · rw [List.take_append_drop, digitsVal_decDigits, sign_mul_natAbs]
          simp only [Option.getD_none, List.length_drop]
          simp only [Option.some.injEq, Decimal.mk.injEq]
          exact ⟨trivial, by omega⟩
  · rw [if_neg hfix]
    by_cases hLle1 : ((decDigits m.natAbs).length : ℤ) ≤ 1
    · rw [if_pos hLle1]
      have hne1 : e + ((decDigits m.natAbs).length : ℤ) ≠ 1 := by
        intro hc
        exact hfix ⟨by omega, by omega⟩
      rw [if_neg hne1]
      have hz : ((1 : ℤ) - ((decDigits m.natAbs).length : ℤ)).toNat = 0 := by omega
      refine (parseDecCore_build (m < 0) _ _ _ ?_ ?_ ?_).trans ?_
      · rw [hz]
        simpa using hdlt
      · intro x hx
        simp at hx
      · rw [hz]
        simpa using hdnn
      · rw [hz]
        simp only [List.replicate_zero, List.append_nil, Option.getD_some,
          List.length_nil]
        rw [digitsVal_decDigits, sign_mul_natAbs]
        simp only [Option.some.injEq, Decimal.mk.injEq]
        exact ⟨trivial, by omega⟩
    · rw [if_neg hLle1]
      have hne1 : e + ((decDigits m.natAbs).length : ℤ) ≠ 1 := by
        intro hc
        exact hfix ⟨by omega, by omega⟩
      rw [if_neg hne1]
      refine (parseDecCore_build (m < 0) _ _ _ ?_ ?_ ?_).trans ?_
      · intro x hx
        exact hdlt x (List.take_subset _ _ hx)
      · intro x hx
        exact hdlt x (List.drop_subset _ _ hx)
      · intro hc
        rw [List.take_eq_nil_iff] at hc
        rcases hc with hc | hc
        · omega
        · exact hdnn hc
      · rw [List.take_append_drop, digitsVal_decDigits, sign_mul_natAbs]
        simp only [Option.getD_some, List.length_drop]
        simp only [Option.some.injEq, Decimal.mk.injEq]
        exact ⟨trivial, by omega⟩

/-- `Decimal(str(d)) = d`: the decimal text emitted by `to_dict` parses back
to exactly the same coefficient and exponent. -/
theorem decOfString_decToString (d : Decimal) :
    decOfString (decToString d) = some d := by
  unfold decOfString decToString
  exact parseDecCore_decToChars d

/-! ## JSON documents and `to_dict` / `from_dict`

`to_dict` only ever emits strings, nulls, objects and arrays, and
`from_dict` reads nothing else, so the document model carries exactly those
four constructors.  A Python `dict` is an association list; `json.loads`
never produces duplicate keys.  Plain string fields are modelled as
strings: a document carrying, say, a number where the program expects a
string is outside the model (`from_dict` performs no type check on those,
but the program never writes such documents). -/

inductive JVal where
  | jnull
  | jstr (s : String)
  | jobj (fields : List (String × JVal))
  | jarr (elems : List JVal)

/-- `dict.get(k)` (first matching key). -/
def jget (k : String) : List (String × JVal) → Option JVal
  | [] => none
  | (k2, v) :: rest => if k = k2 then some v else jget k rest

/-- Python truthiness of the values that can appear in a document. -/
def pyTruthy : JVal → Bool
  | .jnull => false
  | .jstr s => !(s == "")
  | .jobj fs => !fs.isEmpty
  | .jarr es => !es.isEmpty

/-- The keyword set accepted by `Company(**kwargs)`. -/
def companyKeys : List String := ["name", "address", "gst_number", "email", "phone"]

/-- The keyword set accepted by `Customer(**kwargs)`. -/
def customerKeys : List String := ["name", "address", "email", "phone"]

/-- A required string field of a `**kwargs` call: absent (`TypeError`) is
`none`.  The dataclass does not type-check field values, so Python would
accept a non-string value unconverted; documents carrying non-string
values in string positions lie outside this typed model, and no theorem
below concludes anything from a string field holding a non-string. -/
def kwStr (k : String) (cf : List (String × JVal)) : Option String :=
  match jget k cf with
  | some (.jstr s) => some s
  | _ => none

/-- An optional string field with a default (same typed-model scope as
`kwStr`: non-string values in string positions are outside the model). -/
def kwStrD (k : String) (dflt : String) (cf : List (String × JVal)) : Option String :=
  match jget k cf with
  | none => some dflt
  | some (.jstr s) => some s
  | some _ => none

/-- `Company(**data["company"])`: raises `TypeError` (`none`) when a key
outside the parameter list is present or `name`/`address` is missing. -/
def Company.ofKwargs (cf : List (String × JVal)) : Option Company :=
  if cf.all (fun kv => companyKeys.contains kv.1) then do
    let n ← kwStr "name" cf
    let a ← kwStr "address" cf
    let g ← kwStrD "gst_number" "" cf
    let em ← kwStrD "email" "" cf
    let ph ← kwStrD "phone" "" cf
    some ⟨n, a, g, em, ph⟩
  else none

/-- `Customer(**data["customer"])`. -/
def Customer.ofKwargs (cf : List (String × JVal)) : Option Customer :=
  if cf.all (fun kv => customerKeys.contains kv.1) then do
    let n ← kwStr "name" cf
    let a ← kwStr "address" cf
    let em ← kwStrD "email" "" cf
    let ph ← kwStrD "phone" "" cf
    some ⟨n, a, em, ph⟩
  else none

/-- The `company` branch of `from_dict`: a dict value goes through
`Company(**...)`; an absent key falls back to `data.get("company", {})`
whose `.get` calls yield all defaults; any other present value has no
`.get` attribute, so the access raises (`none`). -/
def companyFromDoc (fs : List (String × JVal)) : Option Company :=
  match jget "company" fs with
  | some (.jobj cf) => Company.ofKwargs cf
  | some _ => none
  | none => some ⟨"", "", "", "", ""⟩

/-- The `customer` branch of `from_dict`. -/
def customerFromDoc (fs : List (String × JVal)) : Option Customer :=
  match jget "customer" fs with
  | some (.jobj cf) => Customer.ofKwargs cf
  | some _ => none
  | none => some ⟨"", "", "", ""⟩

/-- `Decimal(str(i.get(k, "0")))` for an item field: absent parses the
default `"0"`; a string parses as decimal text (`InvalidOperation` is
`none`); `str()` of a null, list or dict is never valid decimal text. -/
def decField (k : String) (ifs : List (String × JVal)) : Option Decimal :=
  match jget k ifs with
  | none => decOfString "0"
  | some (.jstr s) => decOfString s
  | some _ => none

/-- One element of the `items` comprehension.  A non-dict element has no
`.get` attribute, so the comprehension raises. -/
def itemFromDoc : JVal → Option Item
  | .jobj ifs => do
    let dsc ← kwStrD "description" "" ifs
    let q ← decField "quantity" ifs
    let u ← decField "unit_price" ifs
    let t ← decField "tax_rate" ifs
    some ⟨dsc, q, u, t⟩
  | _ => none

/-- `data.get("items", [])` iterated.  Iterating a nonempty string yields
characters and a nonempty dict yields key strings — either way the first
`.get` raises; iterating `None` raises immediately; the empty string and
the empty dict iterate to nothing. -/
def itemsFromDoc (fs : List (String × JVal)) : Option (List Item) :=
  match jget "items" fs with
  | none => some []
  | some (.jarr es) => optMapM itemFromDoc es
  | some (.jstr s) => if s = "" then some [] else none
  | some (.jobj []) => some []
  | some (.jobj (_ :: _)) => none
  | some .jnull => none

/-- `date.fromisoformat(data.get("invoice_date", date.today().isoformat()))`:
the ambient `date.today()` is passed explicitly. -/
def invoiceDateField (today : Date) (fs : List (String × JVal)) : Option Date :=
  match jget "invoice_date" fs with
  | none => date_fromisoformat today.isoformat
  | some (.jstr s) => date_fromisoformat s
  | some _ => none

/-- `date.fromisoformat(data["due_date"]) if data.get("due_date") else None`:
a falsy value (absent, null, empty string/list/dict) yields `None`; a
truthy non-string raises `TypeError`. -/
def dueField (fs : List (String × JVal)) : Option (Option Date) :=
  match jget "due_date" fs with
  | none => some none
  | some v =>
    if pyTruthy v then
      match v with
      | .jstr s => (date_fromisoformat s).map some
      | _ => none
    else some none

def Company.to_dict (c : Company) : JVal :=
  .jobj [("name", .jstr c.name), ("address", .jstr c.address),
    ("gst_number", .jstr c.gst_number), ("email", .jstr c.email),
    ("phone", .jstr c.phone)]

def Customer.to_dict (c : Customer) : JVal :=
  .jobj [("name", .jstr c.name), ("address", .jstr c.address),
    ("email", .jstr c.email), ("phone", .jstr c.phone)]

/-- One entry of the `items` list written by `Invoice.to_dict`: decimal
fields as their exact decimal text. -/
def Item.to_dict (it : Item) : JVal :=
  .jobj [("description", .jstr it.description),
    ("quantity", .jstr (decToString it.quantity)),
    ("unit_price", .jstr (decToString it.unit_price)),
    ("tax_rate", .jstr (decToString it.tax_rate))]

/-- `Invoice.to_dict`: nested company/customer objects, items with decimal
text, ISO dates, `due_date` null when absent. -/
def Invoice.to_dict (inv : Invoice) : JVal :=
  .jobj [("company", inv.company.to_dict), ("customer", inv.customer.to_dict),
    ("items", .jarr (inv.items.map Item.to_dict)),
    ("invoice_number", .jstr inv.invoice_number),
    ("invoice_date", .jstr inv.invoice_date.isoformat),
    ("due_date",
      match inv.due_date with
      | some dd => .jstr dd.isoformat
      | none => .jnull),
    ("currency", .jstr inv.currency), ("notes", .jstr inv.notes),
    ("authorized_by", .jstr inv.authorized_by)]

/-- `Invoice.from_dict` (with `date.today()` passed explicitly).  Any
exception in any field — `TypeError`, `InvalidOperation`, `ValueError` —
aborts the whole construction: no partial invoice exists. -/
def Invoice.from_dict (today : Date) : JVal → Option Invoice
  | .jobj fs => do
    let company ← companyFromDoc fs
    let customer ← customerFromDoc fs
    let items ← itemsFromDoc fs
    let number ← kwStrD "invoice_number" "" fs
    let idate ← invoiceDateField today fs
    let ddate ← dueField fs
    let curr ← kwStrD "currency" "EUR" fs
    let nts ← kwStrD "notes" "" fs
    let auth ← kwStrD "authorized_by" "" fs
    some ⟨company, customer, items, number, idate, ddate, curr, nts, auth⟩
  | _ => none

/-! ## `utils.py`: lenient parsing and currency display -/

/-- `str.replace(a, b)` for single-character patterns is a character map. -/
def pyReplaceChar (a b : Char) (s : List Char) : List Char :=
  s.map (fun c => if c = a then b else c)

/-- `parse_decimal` (`utils.py`): strip, turn each comma into a period, try
`Decimal(...)`; on `InvalidOperation` fall back to `Decimal(default)`.
(The `AttributeError` arm catches non-string inputs, which a typed model
cannot produce.) -/
def parse_decimal (value : String) (default : String) : Option Decimal :=
  match decOfString (String.mk (pyReplaceChar ',' '.' (stripChars value.data))) with
  | some d => some d
  | none => decOfString default

/-- The integer cents printed by `f"{amount:,.2f}"` (the formatting also
rounds half-even). -/
def halfEvenCents (d : Decimal) : ℤ :=
  if -2 ≤ d.e then d.m * 10 ^ (d.e + 2).toNat
  else halfEvenDiv d.m (10 ^ (-(d.e + 2)).toNat)

/-- Comma grouping over a little-endian digit list. -/
def group3LE : List ℕ → List Char
  | a :: b :: c :: d :: rest =>
    digitChar a :: digitChar b :: digitChar c :: ',' :: group3LE (d :: rest)
  | l => l.map digitChar

/-- Thousands grouping of a most-significant-first digit list. -/
def group3 (ds : List ℕ) : List Char := (group3LE ds.reverse).reverse

/-- `f"{amount:,.2f}"`: sign, comma-grouped integer part, a period and
exactly two fractional digits. -/
def fixed2 (d : Decimal) : List Char :=
  (if d.m < 0 then ['-'] else []) ++
    group3 (decDigits ((halfEvenCents d).natAbs / 100)) ++
    '.' :: pad2 ((halfEvenCents d).natAbs % 100)

/-- `format_currency` (`utils.py`): format, append the currency code, then
swap comma and period by the three global single-character replaces
`,→_`, `.→,`, `_→.`. -/
def format_currency (amount : Decimal) (currency : String) : String :=
  String.mk (pyReplaceChar '_' '.' (pyReplaceChar '.' ',' (pyReplaceChar ',' '_'
    (fixed2 amount ++ ' ' :: currency.data))))

/-- `non_empty` (`utils.py`). -/
def non_empty (text : Option String) : Bool :=
  match text with
  | none => false
  | some s => !(stripChars s.data).isEmpty && !(s == "")

/-! ## Serialization round trip -/

theorem isoformat_ne_empty (dd : Date) : dd.isoformat ≠ "" := by
  intro hc
  have h2 := congrArg String.data hc
  simp [Date.isoformat, pad4] at h2

theorem pyTruthy_isoformat (dd : Date) : pyTruthy (.jstr dd.isoformat) = true := by
  simp [pyTruthy]
  exact isoformat_ne_empty dd

theorem companyKwargs_fields (c : Company) :
    Company.ofKwargs [("name", .jstr c.name), ("address", .jstr c.address),
      ("gst_number", .jstr c.gst_number), ("email", .jstr c.email),
      ("phone", .jstr c.phone)] = some c := by
  simp [Company.ofKwargs, companyKeys, kwStr, kwStrD, jget]

theorem customerKwargs_fields (c : Customer) :
    Customer.ofKwargs [("name", .jstr c.name), ("address", .jstr c.address),
      ("email", .jstr c.email), ("phone", .jstr c.phone)] = some c := by
  simp [Customer.ofKwargs, customerKeys, kwStr, kwStrD, jget]

theorem optMapM_roundtrip {α β : Type} (f : β → Option α) (g : α → β)
    (l : List α) (h : ∀ a ∈ l, f (g a) = some a) :
    optMapM f (l.map g) = some l := by
  induction l with
  | nil => rfl
  | cons a l ih =>
    simp [optMapM, h a (List.mem_cons_self a l),
      ih (fun x hx => h x (List.mem_cons_of_mem a hx))]

theorem itemFromDoc_to_dict (it : Item) : itemFromDoc it.to_dict = some it := by
  simp [itemFromDoc, Item.to_dict, kwStrD, decField, jget, decOfString_decToString]

theorem from_dict_to_dict (today : Date) (inv : Invoice)
    (h1 : inv.invoice_date.valid) (h2 : ∀ dd ∈ inv.due_date, dd.valid) :
    Invoice.from_dict today inv.to_dict = some inv := by
  rcases inv with ⟨c, cu, items, num, idate, ddate, curr, nts, auth⟩
  have hidate : date_fromisoformat idate.isoformat = some idate :=
    date_fromisoformat_isoformat idate h1
  have hitems : optMapM itemFromDoc (items.map Item.to_dict) = some items :=
    optMapM_roundtrip _ _ _ (fun a _ => itemFromDoc_to_dict a)
  cases ddate with
  | none =>
    simp [Invoice.from_dict, Invoice.to_dict, Company.to_dict, Customer.to_dict,
      companyFromDoc, customerFromDoc, itemsFromDoc, invoiceDateField, dueField,
      kwStrD, jget, pyTruthy, companyKwargs_fields, customerKwargs_fields,
      hidate, hitems]
  | some dd =>
    have hdd : date_fromisoformat dd.isoformat = some dd :=
      date_fromisoformat_isoformat dd (h2 dd (by simp))
    simp [Invoice.from_dict, Invoice.to_dict, Company.to_dict, Customer.to_dict,
      companyFromDoc, customerFromDoc, itemsFromDoc, invoiceDateField, dueField,
      kwStrD, jget, pyTruthy_isoformat, companyKwargs_fields,
      customerKwargs_fields, hidate, hitems, hdd]

/-! ## Shapes of the derived monetary accessors -/

theorem Item.tax_amount_shape (it : Item) (t : Decimal) (h : it.tax_amount = some t) :
    ∃ s, it.subtotal = some s ∧ as_money (s.mul it.tax_rate.div100) = some t := by
  unfold Item.tax_amount at h
  simpa only [Option.bind_eq_bind, Option.bind_eq_some] using h

theorem Item.total_shape (it : Item) (tot : Decimal) (h : it.total = some tot) :
    ∃ s t, it.subtotal = some s ∧ it.tax_amount = some t ∧
      as_money (s.add t) = some tot := by
  unfold Item.total at h
  simp only [Option.bind_eq_bind, Option.bind_eq_some] at h
  obtain ⟨s, hs, t, ht, htot⟩ := h
  exact ⟨s, t, hs, ht, htot⟩

theorem Invoice.subtotal_shape (inv : Invoice) (s : Decimal)
    (h : inv.subtotal = some s) :
    ∃ ss, optMapM Item.subtotal inv.items = some ss ∧
      as_money (ss.foldl Decimal.add decZero) = some s := by
  unfold Invoice.subtotal at h
  simpa only [Option.bind_eq_bind, Option.bind_eq_some] using h

theorem Invoice.tax_total_shape (inv : Invoice) (t : Decimal)
    (h : inv.tax_total = some t) :
    ∃ ts, optMapM Item.tax_amount inv.items = some ts ∧
      as_money (ts.foldl Decimal.add decZero) = some t := by
  unfold Invoice.tax_total at h
  simpa only [Option.bind_eq_bind, Option.bind_eq_some] using h

theorem Invoice.grand_total_shape (inv : Invoice) (g : Decimal)
    (h : inv.grand_total = some g) :
    ∃ s t, inv.subtotal = some s ∧ inv.tax_total = some t ∧
      as_money (s.add t) = some g := by
  unfold Invoice.grand_total at h
  simp only [Option.bind_eq_bind, Option.bind_eq_some] at h
  obtain ⟨s, hs, t, ht, hg⟩ := h
  exact ⟨s, t, hs, ht, hg⟩

/-- The `from_dict` success equation: building an invoice from a document
succeeds with `inv` exactly when every field reader succeeds with the
corresponding field of `inv`. -/
theorem from_dict_eq_some_iff (today : Date) (fs : List (String × JVal))
    (inv : Invoice) :
    Invoice.from_dict today (.jobj fs) = some inv ↔
      companyFromDoc fs = some inv.company ∧
      customerFromDoc fs = some inv.customer ∧
      itemsFromDoc fs = some inv.items ∧
      kwStrD "invoice_number" "" fs = some inv.invoice_number ∧
      invoiceDateField today fs = some inv.invoice_date ∧
      dueField fs = some inv.due_date ∧
      kwStrD "currency" "EUR" fs = some inv.currency ∧
      kwStrD "notes" "" fs = some inv.notes ∧
      kwStrD "authorized_by" "" fs = some inv.authorized_by := by
  constructor
  · intro h
    simp only [Invoice.from_dict, Option.bind_eq_bind, Option.bind_eq_some] at h
    obtain ⟨c, hc, cu, hcu, its, hits, num, hnum, idt, hidt, dd, hdd, cur, hcur,
      nt, hnt, au, hau, heq⟩ := h
    rw [Option.some.injEq] at heq
    subst heq
    exact ⟨hc, hcu, hits, hnum, hidt, hdd, hcur, hnt, hau⟩
  · rintro ⟨h1, h2, h3, h4, h5, h6, h7, h8, h9⟩
    simp [Invoice.from_dict, h1, h2, h3, h4, h5, h6, h7, h8, h9]

/-- A load that cannot deliver any invoice delivers `none`. -/
theorem from_dict_eq_none (today : Date) (fs : List (String × JVal))
    (h : ∀ inv : Invoice, Invoice.from_dict today (.jobj fs) ≠ some inv) :
    Invoice.from_dict today (.jobj fs) = none := by
  cases hfd : Invoice.from_dict today (.jobj fs) with
  | none => rfl
  | some inv => exact absurd hfd (h inv)

/-- C4 counterexample: `round2` is not total on finite decimals.  For the
finite input `Decimal("1E+30")` the quantized coefficient would need 33
digits, which exceeds the context precision of 28, so `quantize` signals
`InvalidOperation` and `as_money` raises rather than returning. -/
theorem claim_c4_counterexample : as_money ⟨1, 30⟩ = none := by decide

/-- C4 (amended): for every finite decimal whose rounded coefficient fits
the 28-digit context precision, `as_money` returns its argument rounded to
exactly two fractional digits under round-half-up with ties away from zero
(`0.005 → 0.01`, `-0.005 → -0.01`); inputs needing more than 28 coefficient
digits signal `InvalidOperation` instead of returning. -/
theorem claim_c4_round_half_up :
    (∀ d c : Decimal, as_money d = some c →
        c.val = round2Q d.val ∧ c.e = -2) ∧
    (∀ d : Decimal, numDigits (quantCoeff d).natAbs ≤ 28 → (as_money d).isSome) ∧
    as_money ⟨5, -3⟩ = some ⟨1, -2⟩ ∧ as_money ⟨-5, -3⟩ = some ⟨-1, -2⟩ := by
  refine ⟨?_, ?_, by decide, by decide⟩
  · intro d c h
    exact ⟨(as_money_some d c h).2.1, (as_money_some d c h).2.2⟩
  · intro d h
    rw [as_money_isSome d h]
    rfl

theorem claim_c4_witness :
    as_money ⟨25, -3⟩ = some ⟨3, -2⟩ ∧
      Decimal.val ⟨3, -2⟩ = round2Q (Decimal.val ⟨25, -3⟩) :=
  ⟨by decide, (claim_c4_round_half_up.1 ⟨25, -3⟩ ⟨3, -2⟩ (by decide)).1⟩

/-- C9 counterexample: a monetary accessor does not return a quantized
decimal for *every* input.  For quantity `1E+15` and unit price `1E+15`
the product is `1E+30`, whose quantization to two fractional digits
exceeds the 28-digit context precision, so `Item.subtotal` raises
`InvalidOperation` instead of returning a value. -/
theorem claim_c9_counterexample :
    Item.subtotal ⟨"big", ⟨1, 15⟩, ⟨1, 15⟩, ⟨0, 0⟩⟩ = none := by decide

/-- C9 (amended): every monetary accessor that returns at all returns a
decimal quantized to exactly two fractional digits (exponent `-2`); when
the quantized coefficient would exceed the 28-digit context precision the
accessor signals instead of returning.  For an invoice with an empty item
list all three aggregates return `0.00`. -/
theorem claim_c9_money_quantized :
    (∀ (it : Item) (c : Decimal), it.subtotal = some c → c.e = -2) ∧
    (∀ (it : Item) (c : Decimal), it.tax_amount = some c → c.e = -2) ∧
    (∀ (it : Item) (c : Decimal), it.total = some c → c.e = -2) ∧
    (∀ (inv : Invoice) (c : Decimal), inv.subtotal = some c → c.e = -2) ∧
    (∀ (inv : Invoice) (c : Decimal), inv.tax_total = some c → c.e = -2) ∧
    (∀ (inv : Invoice) (c : Decimal), inv.grand_total = some c → c.e = -2) ∧
    (∀ inv : Invoice, inv.items = [] →
        inv.subtotal = some ⟨0, -2⟩ ∧ inv.tax_total = some ⟨0, -2⟩ ∧
          inv.grand_total = some ⟨0, -2⟩) := by
  refine ⟨?_, ?_, ?_, ?_, ?_, ?_, ?_⟩
  · intro it c h
    exact (as_money_some _ _ h).2.2
  · intro it c h
    obtain ⟨s, _, hm⟩ := Item.tax_amount_shape it c h
    exact (as_money_some _ _ hm).2.2
  · intro it c h
    obtain ⟨s, t, _, _, hm⟩ := Item.total_shape it c h
    exact (as_money_some _ _ hm).2.2
  · intro inv c h
    obtain ⟨ss, _, hm⟩ := Invoice.subtotal_shape inv c h
    exact (as_money_some _ _ hm).2.2
  · intro inv c h
    obtain ⟨ts, _, hm⟩ := Invoice.tax_total_shape inv c h
    exact (as_money_some _ _ hm).2.2
  · intro inv c h
    obtain ⟨s, t, _, _, hm⟩ := Invoice.grand_total_shape inv c h
    exact (as_money_some _ _ hm).2.2
  · intro inv h
    simp only [Invoice.subtotal, Invoice.tax_total, Invoice.grand_total, h]
    decide

theorem claim_c9_witness :
    Item.tax_amount ⟨"w", ⟨1, 0⟩, ⟨5, 0⟩, ⟨21, 0⟩⟩ = some ⟨105, -2⟩ ∧
      (Decimal.e ⟨105, -2⟩ : ℤ) = -2 :=
  ⟨by decide, claim_c9_money_quantized.2.1 ⟨"w", ⟨1, 0⟩, ⟨5, 0⟩, ⟨21, 0⟩⟩
    ⟨105, -2⟩ (by decide)⟩

/-- C2 counterexample: the per-line formula `subtotal = round2(quantity ×
unit_price)` with exact multiplication is false of the program.  For
quantity `1.0049999999999999999999999999` (29 significant digits, directly
constructible from decimal text) and unit price `1`, the context first
rounds the product to 28 significant digits (`1.005…`, half-even), and
`round2` then yields `1.01`; the exactly-computed right-hand side is
`1.00`. -/
theorem claim_c2_counterexample :
    Item.subtotal ⟨"", ⟨10049999999999999999999999999, -28⟩, ⟨1, 0⟩, ⟨0, 0⟩⟩ =
        some ⟨101, -2⟩ ∧
      Decimal.val ⟨101, -2⟩ ≠
        round2Q (Decimal.val ⟨10049999999999999999999999999, -28⟩ *
          Decimal.val ⟨1, 0⟩) := by
  refine ⟨by decide, ?_⟩
  have hv : Decimal.val ⟨10049999999999999999999999999, -28⟩ * Decimal.val ⟨1, 0⟩ =
      10049999999999999999999999999 / 10 ^ 28 := by
    norm_num [Decimal.val]
  have hr : rhalfAway (10049999999999999999999999999 / 10 ^ 28 * 100) = 100 := by
    apply rhalfAway_nonneg_eq
    · positivity
    · norm_num
    · norm_num
  rw [hv, round2Q, hr]
  norm_num [Decimal.val]

/-- C2 (amended): per-line arithmetic up to context precision.  Whenever
the context arithmetic feeding `as_money` is exact — in particular
whenever the relevant coefficient fits in the context's 28 significant
digits, under which multiplication is exact (first conjunct) — the derived
values satisfy `subtotal = round2(quantity × unit_price)`,
`tax_amount = round2(subtotal × tax_rate/100)` and
`total = round2(subtotal + tax_amount)`; beyond 28 significant digits the
context rounds the product or sum (half-even) before `round2`.
`Item(quantity=2, unit_price=10, tax_rate=10)` yields
`subtotal 20.00, tax_amount 2.00, total 22.00`. -/
theorem claim_c2_item_arithmetic :
    (∀ a b : Decimal, numDigits (a.m * b.m).natAbs ≤ 28 →
        (a.mul b).val = a.val * b.val) ∧
    (∀ (it : Item) (s : Decimal), it.subtotal = some s →
        (it.quantity.mul it.unit_price).val = it.quantity.val * it.unit_price.val →
        s.val = round2Q (it.quantity.val * it.unit_price.val)) ∧
    (∀ (it : Item) (s t : Decimal), it.subtotal = some s → it.tax_amount = some t →
        (s.mul it.tax_rate.div100).val = s.val * (it.tax_rate.val / 100) →
        t.val = round2Q (s.val * (it.tax_rate.val / 100))) ∧
    (∀ (it : Item) (s t tot : Decimal), it.subtotal = some s →
        it.tax_amount = some t → it.total = some tot →
        (s.add t).val = s.val + t.val →
        tot.val = round2Q (s.val + t.val)) ∧
    Item.subtotal ⟨"", ⟨2, 0⟩, ⟨10, 0⟩, ⟨10, 0⟩⟩ = some ⟨2000, -2⟩ ∧
    Item.tax_amount ⟨"", ⟨2, 0⟩, ⟨10, 0⟩, ⟨10, 0⟩⟩ = some ⟨200, -2⟩ ∧
    Item.total ⟨"", ⟨2, 0⟩, ⟨10, 0⟩, ⟨10, 0⟩⟩ = some ⟨2200, -2⟩ := by
  refine ⟨?_, ?_, ?_, ?_, by decide, by decide, by decide⟩
  · intro a b h
    exact Decimal.val_mul_exact a b h
  · intro it s h hexact
    have h2 := (as_money_some _ _ h).2.1
    rwa [hexact] at h2
  · intro it s t hs ht hexact
    obtain ⟨s2, hs2, hm⟩ := Item.tax_amount_shape it t ht
    obtain rfl := Option.some.inj (hs.symm.trans hs2)
    have h2 := (as_money_some _ _ hm).2.1
    rwa [hexact] at h2
  · intro it s t tot hs ht htot hexact
    obtain ⟨s2, t2, hs2, ht2, hm⟩ := Item.total_shape it tot htot
    obtain rfl := Option.some.inj (hs.symm.trans hs2)
    obtain rfl := Option.some.inj (ht.symm.trans ht2)
    have h2 := (as_money_some _ _ hm).2.1
    rwa [hexact] at h2

theorem claim_c2_witness :
    Item.subtotal ⟨"x", ⟨35, -1⟩, ⟨3, 0⟩, ⟨0, 0⟩⟩ = some ⟨1050, -2⟩ ∧
      (Decimal.mul ⟨35, -1⟩ ⟨3, 0⟩).val = Decimal.val ⟨35, -1⟩ * Decimal.val ⟨3, 0⟩ ∧
      Decimal.val ⟨1050, -2⟩ =
        round2Q (Decimal.val ⟨35, -1⟩ * Decimal.val ⟨3, 0⟩) :=
  ⟨by decide,
    by
      rw [show Decimal.mul ⟨35, -1⟩ ⟨3, 0⟩ = ⟨105, -1⟩ from by decide]
      norm_num [Decimal.val],
    claim_c2_item_arithmetic.2.1 ⟨"x", ⟨35, -1⟩, ⟨3, 0⟩, ⟨0, 0⟩⟩
      ⟨1050, -2⟩ (by decide)
      (by
        rw [show Decimal.mul ⟨35, -1⟩ ⟨3, 0⟩ = ⟨105, -1⟩ from by decide]
        norm_num [Decimal.val])⟩

/-- C3 counterexample: `subtotal = round2(Σ item subtotals)` with exact
summation is false of the program.  With unit prices
`99999999999999999999999999.99` (twice), its negation, and `-0.02` (all at
quantity 1, tax 0), the context rounds the running sum to 28 significant
digits after each addition: the program returns
`99999999999999999999999999.98`, while the exactly-summed right-hand side
is `99999999999999999999999999.97`. -/
theorem claim_c3_counterexample :
    optMapM Item.subtotal
        [⟨"a", ⟨1, 0⟩, ⟨9999999999999999999999999999, -2⟩, ⟨0, 0⟩⟩,
         ⟨"b", ⟨1, 0⟩, ⟨9999999999999999999999999999, -2⟩, ⟨0, 0⟩⟩,
         ⟨"c", ⟨1, 0⟩, ⟨-9999999999999999999999999999, -2⟩, ⟨0, 0⟩⟩,
         ⟨"d", ⟨1, 0⟩, ⟨-2, -2⟩, ⟨0, 0⟩⟩] =
      some [⟨9999999999999999999999999999, -2⟩, ⟨9999999999999999999999999999, -2⟩,
        ⟨-9999999999999999999999999999, -2⟩, ⟨-2, -2⟩] ∧
    Invoice.subtotal ⟨⟨"n", "a", "", "", ""⟩, ⟨"n", "a", "", ""⟩,
        [⟨"a", ⟨1, 0⟩, ⟨9999999999999999999999999999, -2⟩, ⟨0, 0⟩⟩,
         ⟨"b", ⟨1, 0⟩, ⟨9999999999999999999999999999, -2⟩, ⟨0, 0⟩⟩,
         ⟨"c", ⟨1, 0⟩, ⟨-9999999999999999999999999999, -2⟩, ⟨0, 0⟩⟩,
         ⟨"d", ⟨1, 0⟩, ⟨-2, -2⟩, ⟨0, 0⟩⟩], "", ⟨2025, 1, 1⟩, none, "EUR", "", ""⟩ =
      some ⟨9999999999999999999999999998, -2⟩ ∧
    Decimal.val ⟨9999999999999999999999999998, -2⟩ ≠
      round2Q (([(⟨9999999999999999999999999999, -2⟩ : Decimal),
        ⟨9999999999999999999999999999, -2⟩, ⟨-9999999999999999999999999999, -2⟩,
        ⟨-2, -2⟩].map Decimal.val).sum) := by
  refine ⟨by decide, by decide, ?_⟩
  have hs : (([(⟨9999999999999999999999999999, -2⟩ : Decimal),
      ⟨9999999999999999999999999999, -2⟩, ⟨-9999999999999999999999999999, -2⟩,
      ⟨-2, -2⟩].map Decimal.val).sum) = 9999999999999999999999999997 / 100 := by
    norm_num [Decimal.val, List.map_cons, List.map_nil, List.sum_cons, List.sum_nil]
  have hr : rhalfAway (9999999999999999999999999997 / 100 * 100) =
      9999999999999999999999999997 := by
    apply rhalfAway_nonneg_eq
    · positivity
    · norm_num
    · norm_num
  rw [hs, round2Q, hr]
  norm_num [Decimal.val]

/-- C3 (amended): invoice aggregates up to context precision.  Whenever
the context summation feeding `as_money` is exact — as it is while the
aligned running coefficients stay within the context's 28 significant
digits (general exactness: first conjunct) — `subtotal` is the sum of the
item subtotals rounded half-up to two digits, `tax_total` likewise for
the tax amounts, and `grand_total` is `subtotal + tax_total` so rounded;
beyond 28 significant digits the context rounds each intermediate sum
(half-even) before `round2`.  The aggregates are functions of the current
`items` sequence alone — recomputed on every call, so the invariant
survives any replacement of `items` — and the two-item example
`[(1, 100, 0%), (2, 50, 10%)]` yields `200.00 / 10.00 / 210.00`. -/
theorem claim_c3_invoice_totals :
    (∀ a b : Decimal, numDigits (a.m * 10 ^ (a.e - min a.e b.e).toNat +
        b.m * 10 ^ (b.e - min a.e b.e).toNat).natAbs ≤ 28 →
        (a.add b).val = a.val + b.val) ∧
    (∀ (inv : Invoice) (ss : List Decimal) (s : Decimal),
        optMapM Item.subtotal inv.items = some ss → inv.subtotal = some s →
        (List.foldl Decimal.add decZero ss).val = (ss.map Decimal.val).sum →
        s.val = round2Q ((ss.map Decimal.val).sum)) ∧
    (∀ (inv : Invoice) (ts : List Decimal) (t : Decimal),
        optMapM Item.tax_amount inv.items = some ts → inv.tax_total = some t →
        (List.foldl Decimal.add decZero ts).val = (ts.map Decimal.val).sum →
        t.val = round2Q ((ts.map Decimal.val).sum)) ∧
    (∀ (inv : Invoice) (s t g : Decimal), inv.subtotal = some s →
        inv.tax_total = some t → inv.grand_total = some g →
        (s.add t).val = s.val + t.val →
        g.val = round2Q (s.val + t.val)) ∧
    (∀ inv1 inv2 : Invoice, inv1.items = inv2.items →
        inv1.subtotal = inv2.subtotal ∧ inv1.tax_total = inv2.tax_total ∧
          inv1.grand_total = inv2.grand_total) ∧
    (∀ c : Company, ∀ cu : Customer,
        Invoice.subtotal ⟨c, cu, [⟨"a", ⟨1, 0⟩, ⟨100, 0⟩, ⟨0, 0⟩⟩,
            ⟨"b", ⟨2, 0⟩, ⟨50, 0⟩, ⟨10, 0⟩⟩], "", ⟨2025, 1, 1⟩, none, "EUR", "", ""⟩ =
          some ⟨20000, -2⟩ ∧
        Invoice.tax_total ⟨c, cu, [⟨"a", ⟨1, 0⟩, ⟨100, 0⟩, ⟨0, 0⟩⟩,
            ⟨"b", ⟨2, 0⟩, ⟨50, 0⟩, ⟨10, 0⟩⟩], "", ⟨2025, 1, 1⟩, none, "EUR", "", ""⟩ =
          some ⟨1000, -2⟩ ∧
        Invoice.grand_total ⟨c, cu, [⟨"a", ⟨1, 0⟩, ⟨100, 0⟩, ⟨0, 0⟩⟩,
            ⟨"b", ⟨2, 0⟩, ⟨50, 0⟩, ⟨10, 0⟩⟩], "", ⟨2025, 1, 1⟩, none, "EUR", "", ""⟩ =
          some ⟨21000, -2⟩) := by
  refine ⟨?_, ?_, ?_, ?_, ?_, ?_⟩
  · intro a b h
    exact Decimal.val_add_exact a b h
  · intro inv ss s hss hs hexact
    obtain ⟨ss', hss', hm⟩ := Invoice.subtotal_shape inv s hs
    obtain rfl := Option.some.inj (hss.symm.trans hss')
    have h2 := (as_money_some _ _ hm).2.1
    rwa [hexact] at h2
  · intro inv ts t hts ht hexact
    obtain ⟨ts', hts', hm⟩ := Invoice.tax_total_shape inv t ht
    obtain rfl := Option.some.inj (hts.symm.trans hts')
    have h2 := (as_money_some _ _ hm).2.1
    rwa [hexact] at h2
  · intro inv s t g hs ht hg hexact
    obtain ⟨s', t', hs', ht', hm⟩ := Invoice.grand_total_shape inv g hg
    obtain rfl := Option.some.inj (hs.symm.trans hs')
    obtain rfl := Option.some.inj (ht.symm.trans ht')
    have h2 := (as_money_some _ _ hm).2.1
    rwa [hexact] at h2
  · intro inv1 inv2 h
    refine ⟨?_, ?_, ?_⟩ <;>
      simp only [Invoice.subtotal, Invoice.tax_total, Invoice.grand_total, h]
  · intro c cu
    refine ⟨?_, ?_, ?_⟩ <;>
      simp only [Invoice.subtotal, Invoice.tax_total, Invoice.grand_total] <;>
      decide

theorem claim_c3_witness :
    optMapM Item.subtotal [(⟨"a", ⟨1, 0⟩, ⟨100, 0⟩, ⟨0, 0⟩⟩ : Item)] =
        some [⟨10000, -2⟩] ∧
      Invoice.subtotal ⟨⟨"n", "a", "", "", ""⟩, ⟨"n", "a", "", ""⟩,
          [⟨"a", ⟨1, 0⟩, ⟨100, 0⟩, ⟨0, 0⟩⟩], "", ⟨2025, 1, 1⟩, none, "EUR", "", ""⟩ =
        some ⟨10000, -2⟩ ∧
      (List.foldl Decimal.add decZero [(⟨10000, -2⟩ : Decimal)]).val =
        (([(⟨10000, -2⟩ : Decimal)]).map Decimal.val).sum ∧
      Decimal.val ⟨10000, -2⟩ =
        round2Q (([(⟨10000, -2⟩ : Decimal)].map Decimal.val).sum) :=
  ⟨by decide, by decide,
    by
      rw [show List.foldl Decimal.add decZero [(⟨10000, -2⟩ : Decimal)] =
        ⟨10000, -2⟩ from by decide]
      norm_num [Decimal.val, List.map_cons, List.map_nil, List.sum_cons,
        List.sum_nil],
    claim_c3_invoice_totals.2.1
      ⟨⟨"n", "a", "", "", ""⟩, ⟨"n", "a", "", ""⟩,
        [⟨"a", ⟨1, 0⟩, ⟨100, 0⟩, ⟨0, 0⟩⟩], "", ⟨2025, 1, 1⟩, none, "EUR", "", ""⟩
      [⟨10000, -2⟩] ⟨10000, -2⟩ (by decide) (by decide)
      (by
        rw [show List.foldl Decimal.add decZero [(⟨10000, -2⟩ : Decimal)] =
          ⟨10000, -2⟩ from by decide]
        norm_num [Decimal.val, List.map_cons, List.map_nil, List.sum_cons,
          List.sum_nil])⟩

/-- C5: `parse_decimal` never raises for string input: it strips
whitespace, turns each comma into a period, and parses exact decimal text;
any failure falls back to the parsed default.  With the default default
`"0"` it always returns a value, `parse_decimal("12,34") == 12.34`, and
`parse_decimal("oops", default="1") == 1`. -/
theorem claim_c5_parse_decimal :
    (∀ value : String, (parse_decimal value "0").isSome) ∧
    parse_decimal "12,34" "0" = some ⟨1234, -2⟩ ∧
    parse_decimal "oops" "1" = some ⟨1, 0⟩ ∧
    (∀ (value default : String) (d : Decimal), decOfString default = some d →
        (parse_decimal value default).isSome) := by
  have key : ∀ (value default : String) (d : Decimal), decOfString default = some d →
      (parse_decimal value default).isSome := by
    intro value default d h
    unfold parse_decimal
    cases decOfString (String.mk (pyReplaceChar ',' '.' (stripChars value.data))) with
    | none => simp [h]
    | some d2 => simp
  exact ⟨fun value => key value "0" ⟨0, 0⟩ (by decide), by decide, by decide, key⟩

theorem claim_c5_witness :
    decOfString "2,5" = none ∧ decOfString "7" = some ⟨7, 0⟩ ∧
      (parse_decimal "abc" "7").isSome :=
  ⟨by decide, by decide, claim_c5_parse_decimal.2.2.2 "abc" "7" ⟨7, 0⟩ (by decide)⟩

/-- C1: serialization round trip.  For every invoice constructible in the
domain model (its dates being valid calendar dates, as every Python `date`
is), `from_dict(to_dict(x))` rebuilds `x` field by field — decimal fields
through their exact decimal text, dates through ISO-8601 text — whatever
the ambient `date.today()` is during the load. -/
theorem claim_c1_round_trip :
    ∀ (inv : Invoice) (today : Date), inv.invoice_date.valid →
      (∀ dd ∈ inv.due_date, dd.valid) →
      Invoice.from_dict today inv.to_dict = some inv := by
  intro inv today h1 h2
  exact from_dict_to_dict today inv h1 h2

theorem claim_c1_witness :
    Date.valid ⟨2025, 10, 19⟩ ∧
      Invoice.from_dict ⟨2026, 1, 1⟩
          (Invoice.to_dict ⟨⟨"ACME", "1 Road", "G", "e", "p"⟩, ⟨"C", "2 Rd", "", ""⟩,
            [⟨"W", ⟨2, 0⟩, ⟨10, 0⟩, ⟨10, 0⟩⟩, ⟨"V", ⟨15, -1⟩, ⟨999, -2⟩, ⟨0, -1⟩⟩],
            "INV-1", ⟨2025, 10, 19⟩, some ⟨2025, 11, 19⟩, "EUR", "n", "MY"⟩) =
        some ⟨⟨"ACME", "1 Road", "G", "e", "p"⟩, ⟨"C", "2 Rd", "", ""⟩,
          [⟨"W", ⟨2, 0⟩, ⟨10, 0⟩, ⟨10, 0⟩⟩, ⟨"V", ⟨15, -1⟩, ⟨999, -2⟩, ⟨0, -1⟩⟩],
          "INV-1", ⟨2025, 10, 19⟩, some ⟨2025, 11, 19⟩, "EUR", "n", "MY"⟩ :=
  ⟨by decide, claim_c1_round_trip _ _ (by decide) (by decide)⟩

/-- C7: the permissive reader.  When the `company` (resp. `customer`) key
is entirely absent, any successfully loaded invoice carries the default
sub-object with `name=""`, `address=""` and empty optional fields; and the
empty document loads successfully with every optional top-level field at
its data-model default (`invoice_number`/`notes`/`authorized_by` empty,
no items, no due date, currency `"EUR"`, invoice date today). -/
theorem claim_c7_missing_defaults :
    (∀ (today : Date) (fs : List (String × JVal)) (inv : Invoice),
        jget "company" fs = none → Invoice.from_dict today (.jobj fs) = some inv →
        inv.company = ⟨"", "", "", "", ""⟩) ∧
    (∀ (today : Date) (fs : List (String × JVal)) (inv : Invoice),
        jget "customer" fs = none → Invoice.from_dict today (.jobj fs) = some inv →
        inv.customer = ⟨"", "", "", ""⟩) ∧
    (∀ today : Date, today.valid →
        Invoice.from_dict today (.jobj []) =
          some ⟨⟨"", "", "", "", ""⟩, ⟨"", "", "", ""⟩, [], "", today, none,
            "EUR", "", ""⟩) := by
  refine ⟨?_, ?_, ?_⟩
  · intro today fs inv hget h
    have hc := ((from_dict_eq_some_iff today fs inv).mp h).1
    rw [companyFromDoc, hget] at hc
    exact (Option.some.inj hc).symm
  · intro today fs inv hget h
    have hc := ((from_dict_eq_some_iff today fs inv).mp h).2.1
    rw [customerFromDoc, hget] at hc
    exact (Option.some.inj hc).symm
  · intro today htoday
    refine (from_dict_eq_some_iff today [] _).mpr
      ⟨rfl, rfl, rfl, rfl, ?_, rfl, rfl, rfl, rfl⟩
    show invoiceDateField today [] = some today
    rw [invoiceDateField]
    exact date_fromisoformat_isoformat today htoday

theorem claim_c7_witness :
    jget "company" [("notes", JVal.jstr "n")] = none ∧
      Invoice.from_dict ⟨2025, 1, 1⟩ (.jobj [("notes", JVal.jstr "n")]) =
        some ⟨⟨"", "", "", "", ""⟩, ⟨"", "", "", ""⟩, [], "", ⟨2025, 1, 1⟩, none,
          "EUR", "n", ""⟩ ∧
      Company.name ⟨"", "", "", "", ""⟩ = "" ∧
      Date.valid ⟨2025, 1, 1⟩ ∧
      Invoice.from_dict ⟨2025, 1, 1⟩ (.jobj []) =
        some ⟨⟨"", "", "", "", ""⟩, ⟨"", "", "", ""⟩, [], "", ⟨2025, 1, 1⟩, none,
          "EUR", "", ""⟩ :=
  ⟨rfl, by decide,
    congrArg Company.name
      (claim_c7_missing_defaults.1 ⟨2025, 1, 1⟩ [("notes", JVal.jstr "n")]
        ⟨⟨"", "", "", "", ""⟩, ⟨"", "", "", ""⟩, [], "", ⟨2025, 1, 1⟩, none,
          "EUR", "n", ""⟩ rfl (by decide)),
    by decide, claim_c7_missing_defaults.2.2 ⟨2025, 1, 1⟩ (by decide)⟩

theorem companyKwargs_none_no_name (cf : List (String × JVal))
    (h : jget "name" cf = none) : Company.ofKwargs cf = none := by
  unfold Company.ofKwargs
  split_ifs with hall
  · simp [kwStr, h]
  · rfl

theorem companyKwargs_none_no_address (cf : List (String × JVal))
    (h : jget "address" cf = none) : Company.ofKwargs cf = none := by
  unfold Company.ofKwargs
  split_ifs with hall
  · have ha : kwStr "address" cf = none := by simp [kwStr, h]
    cases hn : kwStr "name" cf <;> simp [hn, ha]
  · rfl

theorem companyKwargs_none_extra_key (cf : List (String × JVal))
    (k : String) (v : JVal) (hmem : (k, v) ∈ cf) (hk : k ∉ companyKeys) :
    Company.ofKwargs cf = none := by
  unfold Company.ofKwargs
  rw [if_neg]
  intro hall
  have hc := List.all_eq_true.mp hall (k, v) hmem
  simp at hc
  exact hk hc

theorem customerKwargs_none_no_name (cf : List (String × JVal))
    (h : jget "name" cf = none) : Customer.ofKwargs cf = none := by
  unfold Customer.ofKwargs
  split_ifs with hall
  · simp [kwStr, h]
  · rfl

theorem customerKwargs_none_no_address (cf : List (String × JVal))
    (h : jget "address" cf = none) : Customer.ofKwargs cf = none := by
  unfold Customer.ofKwargs
  split_ifs with hall
  · have ha : kwStr "address" cf = none := by simp [kwStr, h]
    cases hn : kwStr "name" cf <;> simp [hn, ha]
  · rfl

theorem customerKwargs_none_extra_key (cf : List (String × JVal))
    (k : String) (v : JVal) (hmem : (k, v) ∈ cf) (hk : k ∉ customerKeys) :
    Customer.ofKwargs cf = none := by
  unfold Customer.ofKwargs
  rw [if_neg]
  intro hall
  have hc := List.all_eq_true.mp hall (k, v) hmem
  simp at hc
  exact hk hc

theorem companyFromDoc_none_not_obj (fs : List (String × JVal)) (v : JVal)
    (hget : jget "company" fs = some v) (hv : ∀ cf, v ≠ .jobj cf) :
    companyFromDoc fs = none := by
  cases v with
  | jobj cf => exact absurd rfl (hv cf)
  | jnull => simp [companyFromDoc, hget]
  | jstr s => simp [companyFromDoc, hget]
  | jarr es => simp [companyFromDoc, hget]

theorem customerFromDoc_none_not_obj (fs : List (String × JVal)) (v : JVal)
    (hget : jget "customer" fs = some v) (hv : ∀ cf, v ≠ .jobj cf) :
    customerFromDoc fs = none := by
  cases v with
  | jobj cf => exact absurd rfl (hv cf)
  | jnull => simp [customerFromDoc, hget]
  | jstr s => simp [customerFromDoc, hget]
  | jarr es => simp [customerFromDoc, hget]

/-- C10: the permissive company/customer defaulting applies only to a key
that is entirely absent.  A `company` (resp. `customer`) present as a
key-value structure missing `name` or `address`, or carrying a key outside
the declared field set, raises `TypeError` in `Company(**...)`; present as
a non-structure value it raises `AttributeError` on `.get`.  Either way
the whole load fails. -/
theorem claim_c10_malformed_subobject :
    (∀ (today : Date) (fs cf : List (String × JVal)),
        jget "company" fs = some (.jobj cf) → jget "name" cf = none →
        Invoice.from_dict today (.jobj fs) = none) ∧
    (∀ (today : Date) (fs cf : List (String × JVal)),
        jget "company" fs = some (.jobj cf) → jget "address" cf = none →
        Invoice.from_dict today (.jobj fs) = none) ∧
    (∀ (today : Date) (fs cf : List (String × JVal)) (k : String) (v : JVal),
        jget "company" fs = some (.jobj cf) → (k, v) ∈ cf → k ∉ companyKeys →
        Invoice.from_dict today (.jobj fs) = none) ∧
    (∀ (today : Date) (fs : List (String × JVal)) (v : JVal),
        jget "company" fs = some v → (∀ cf, v ≠ .jobj cf) →
        Invoice.from_dict today (.jobj fs) = none) ∧
    (∀ (today : Date) (fs cf : List (String × JVal)),
        jget "customer" fs = some (.jobj cf) → jget "name" cf = none →
        Invoice.from_dict today (.jobj fs) = none) ∧
    (∀ (today : Date) (fs cf : List (String × JVal)),
        jget "customer" fs = some (.jobj cf) → jget "address" cf = none →
        Invoice.from_dict today (.jobj fs) = none) ∧
    (∀ (today : Date) (fs cf : List (String × JVal)) (k : String) (v : JVal),
        jget "customer" fs = some (.jobj cf) → (k, v) ∈ cf → k ∉ customerKeys →
        Invoice.from_dict today (.jobj fs) = none) ∧
    (∀ (today : Date) (fs : List (String × JVal)) (v : JVal),
        jget "customer" fs = some v → (∀ cf, v ≠ .jobj cf) →
        Invoice.from_dict today (.jobj fs) = none) := by
  have hco : ∀ (today : Date) (fs : List (String × JVal)),
      companyFromDoc fs = none → Invoice.from_dict today (.jobj fs) = none := by
    intro today fs hnone
    apply from_dict_eq_none
    intro inv hcontra
    have h1 := ((from_dict_eq_some_iff today fs inv).mp hcontra).1
    rw [hnone] at h1
    exact Option.noConfusion h1
  have hcu : ∀ (today : Date) (fs : List (String × JVal)),
      customerFromDoc fs = none → Invoice.from_dict today (.jobj fs) = none := by
    intro today fs hnone
    apply from_dict_eq_none
    intro inv hcontra
    have h2 := ((from_dict_eq_some_iff today fs inv).mp hcontra).2.1
    rw [hnone] at h2
    exact Option.noConfusion h2
  refine ⟨?_, ?_, ?_, ?_, ?_, ?_, ?_, ?_⟩
  · intro today fs cf hget hname
    exact hco today fs (by
      simp only [companyFromDoc, hget]
      exact companyKwargs_none_no_name cf hname)
  · intro today fs cf hget haddr
    exact hco today fs (by
      simp only [companyFromDoc, hget]
      exact companyKwargs_none_no_address cf haddr)
  · intro today fs cf k v hget hmem hk
    exact hco today fs (by
      simp only [companyFromDoc, hget]
      exact companyKwargs_none_extra_key cf k v hmem hk)
  · intro today fs v hget hv
    exact hco today fs (companyFromDoc_none_not_obj fs v hget hv)
  · intro today fs cf hget hname
    exact hcu today fs (by
      simp only [customerFromDoc, hget]
      exact customerKwargs_none_no_name cf hname)
  · intro today fs cf hget haddr
    exact hcu today fs (by
      simp only [customerFromDoc, hget]
      exact customerKwargs_none_no_address cf haddr)
  · intro today fs cf k v hget hmem hk
    exact hcu today fs (by
      simp only [customerFromDoc, hget]
      exact customerKwargs_none_extra_key cf k v hmem hk)
  · intro today fs v hget hv
    exact hcu today fs (customerFromDoc_none_not_obj fs v hget hv)

theorem claim_c10_witness :
    Invoice.from_dict ⟨2025, 1, 1⟩
        (.jobj [("company", JVal.jobj [("address", JVal.jstr "x")])]) = none ∧
      Invoice.from_dict ⟨2025, 1, 1⟩
        (.jobj [("company", JVal.jobj [("name", JVal.jstr "n"),
          ("address", JVal.jstr "x"), ("web", JVal.jstr "w")])]) = none ∧
      Invoice.from_dict ⟨2025, 1, 1⟩
        (.jobj [("company", JVal.jstr "ACME")]) = none :=
  ⟨claim_c10_malformed_subobject.1 ⟨2025, 1, 1⟩
      [("company", JVal.jobj [("address", JVal.jstr "x")])]
      [("address", JVal.jstr "x")] rfl rfl,
    claim_c10_malformed_subobject.2.2.1 ⟨2025, 1, 1⟩
      [("company", JVal.jobj [("name", JVal.jstr "n"), ("address", JVal.jstr "x"),
        ("web", JVal.jstr "w")])]
      [("name", JVal.jstr "n"), ("address", JVal.jstr "x"), ("web", JVal.jstr "w")]
      "web" (JVal.jstr "w") rfl (by simp) (by decide),
    claim_c10_malformed_subobject.2.2.2.1 ⟨2025, 1, 1⟩
      [("company", JVal.jstr "ACME")] (JVal.jstr "ACME") rfl
      (fun cf => by intro hc; cases hc)⟩

theorem pyReplaceChar_id (a b : Char) (l : List Char) (h : ∀ c ∈ l, c ≠ a) :
    pyReplaceChar a b l = l := by
  induction l with
  | nil => rfl
  | cons c l ih =>
    simp only [pyReplaceChar, List.map_cons] at *
    rw [if_neg (h c (List.mem_cons_self c l)), ih (fun x hx => h x (List.mem_cons_of_mem c hx))]

theorem swapChars_id (l : List Char) (h : ∀ c ∈ l, c ≠ ',' ∧ c ≠ '.' ∧ c ≠ '_') :
    pyReplaceChar '_' '.' (pyReplaceChar '.' ',' (pyReplaceChar ',' '_' l)) = l := by
  rw [pyReplaceChar_id _ _ _ (fun c hc => (h c hc).1),
    pyReplaceChar_id _ _ _ (fun c hc => (h c hc).2.1),
    pyReplaceChar_id _ _ _ (fun c hc => (h c hc).2.2)]

theorem swapChars_append (l1 l2 : List Char) :
    pyReplaceChar '_' '.' (pyReplaceChar '.' ',' (pyReplaceChar ',' '_' (l1 ++ l2))) =
      pyReplaceChar '_' '.' (pyReplaceChar '.' ',' (pyReplaceChar ',' '_' l1)) ++
        pyReplaceChar '_' '.' (pyReplaceChar '.' ',' (pyReplaceChar ',' '_' l2)) := by
  simp [pyReplaceChar, List.map_append]

/-- The comma/period swap turns the formatted number's decimal point into a
comma, fixes digits and spaces, and leaves a separator-free currency code
untouched, so the output is "number with decimal comma and two fractional
digits, blank, currency code". -/
theorem format_currency_shape (amount : Decimal) (cur : String)
    (hcur : ∀ c ∈ cur.data, c ≠ ',' ∧ c ≠ '.' ∧ c ≠ '_') :
    ∃ front : List Char, ∃ t1 t2 : ℕ, t1 < 10 ∧ t2 < 10 ∧
      (format_currency amount cur).data =
        (front ++ [',', digitChar t1, digitChar t2]) ++ (' ' :: cur.data) := by
  have hr100 : (halfEvenCents amount).natAbs % 100 < 100 := Nat.mod_lt _ (by norm_num)
  have ht1 : (halfEvenCents amount).natAbs % 100 / 10 < 10 := by omega
  have ht2 : (halfEvenCents amount).natAbs % 100 % 10 < 10 := by omega
  refine ⟨pyReplaceChar '_' '.' (pyReplaceChar '.' ',' (pyReplaceChar ',' '_'
      ((if amount.m < 0 then ['-'] else []) ++
        group3 (decDigits ((halfEvenCents amount).natAbs / 100))))),
    (halfEvenCents amount).natAbs % 100 / 10,
    (halfEvenCents amount).natAbs % 100 % 10, ht1, ht2, ?_⟩
  have hshape : fixed2 amount ++ ' ' :: cur.data =
      ((if amount.m < 0 then ['-'] else []) ++
          group3 (decDigits ((halfEvenCents amount).natAbs / 100))) ++
        (['.', digitChar ((halfEvenCents amount).natAbs % 100 / 10),
          digitChar ((halfEvenCents amount).natAbs % 100 % 10)] ++
          (' ' :: cur.data)) := by
    simp [fixed2, pad2, List.append_assoc]
  have hdot : pyReplaceChar '_' '.' (pyReplaceChar '.' ',' (pyReplaceChar ',' '_'
      ['.', digitChar ((halfEvenCents amount).natAbs % 100 / 10),
        digitChar ((halfEvenCents amount).natAbs % 100 % 10)])) =
      [',', digitChar ((halfEvenCents amount).natAbs % 100 / 10),
        digitChar ((halfEvenCents amount).natAbs % 100 % 10)] := by
    obtain ⟨-, -, -, -, -, -, -, hd1, hc1, hu1⟩ := digitChar_class _ ht1
    obtain ⟨-, -, -, -, -, -, -, hd2, hc2, hu2⟩ := digitChar_class _ ht2
    simp [pyReplaceChar, hd1, hc1, hu1, hd2, hc2, hu2]
  have hcur2 : pyReplaceChar '_' '.' (pyReplaceChar '.' ',' (pyReplaceChar ',' '_'
      (' ' :: cur.data))) = ' ' :: cur.data := by
    apply swapChars_id
    intro c hc
    rcases List.mem_cons.mp hc with rfl | h2
    · exact ⟨by decide, by decide, by decide⟩
    · exact hcur c h2
  show pyReplaceChar '_' '.' (pyReplaceChar '.' ',' (pyReplaceChar ',' '_'
      (fixed2 amount ++ ' ' :: cur.data))) = _
  rw [hshape]
  simp only [swapChars_append]
  rw [hdot, hcur2]
  simp [List.append_assoc]

/-- C8: `format_currency` renders the amount with thousands grouping and
exactly two fractional digits and then swaps comma and period globally, so
(for a currency code free of separator characters) the result is the
number with period grouping and a decimal comma followed by a blank and
the currency code; `format_currency(1234.50, "EUR") = "1.234,50 EUR"`,
which contains `"EUR"`.  The transform is a pure function of its
arguments: it never fails and leaves the decimal value untouched. -/
theorem claim_c8_format_currency :
    format_currency ⟨123450, -2⟩ "EUR" = "1.234,50 EUR" ∧
    (∃ pre : String, format_currency ⟨123450, -2⟩ "EUR" = pre ++ "EUR") ∧
    (∀ (amount : Decimal) (cur : String),
        (∀ c ∈ cur.data, c ≠ ',' ∧ c ≠ '.' ∧ c ≠ '_') →
        ∃ front : List Char, ∃ t1 t2 : ℕ, t1 < 10 ∧ t2 < 10 ∧
          (format_currency amount cur).data =
            (front ++ [',', digitChar t1, digitChar t2]) ++ (' ' :: cur.data)) := by
  refine ⟨by decide, ⟨"1.234,50 ", by decide⟩, ?_⟩
  intro amount cur hcur
  exact format_currency_shape amount cur hcur

theorem claim_c8_witness :
    (∀ c ∈ ("USD" : String).data, c ≠ ',' ∧ c ≠ '.' ∧ c ≠ '_') ∧
      format_currency ⟨98765, -2⟩ "USD" = "987,65 USD" ∧
      ∃ front : List Char, ∃ t1 t2 : ℕ, t1 < 10 ∧ t2 < 10 ∧
        (format_currency ⟨98765, -2⟩ "USD").data =
          (front ++ [',', digitChar t1, digitChar t2]) ++ (' ' :: ("USD" : String).data) :=
  ⟨by decide, by decide,
    claim_c8_format_currency.2.2 ⟨98765, -2⟩ "USD" (by decide)⟩
